import Mathlib

/-!
Package `optional` (meln5674/gopt)

A shallow embedding of `optional/optional.go` and a verification of its contract.

The Go package defines a generic struct `Optional[T]` with two fields, three
constructors, five methods with a pointer receiver and four free combinators.
Several operations take or return pointers (`*T`, `*Optional[T]`), so the embedding
carries an explicit memory of Go variables:

* a variable of type `T` lives in `Mem.vars`, a variable of type `Optional[T]` in `Mem.opts`;
* a `*T` is `nil`, the address of a `T` variable, or the address of the `value`
  field of an `Optional[T]` variable;
* a `*Optional[T]` is `nil` or the address of an `Optional[T]` variable;
* a run-time panic is an `Except.error`.

The zero value of a Go type `T` is `default` of `Inhabited T`.
-/

namespace optional

/-! ## Data model -/

/-- The struct `Optional[T]`: a payload and a presence flag. -/
structure Optional (T : Type) where
  value : T
  present : Bool
deriving DecidableEq, Repr

/-- The ways a Go computation terminates abnormally. -/
inductive Fault where
  /-- The run-time error of reading or writing through a nil pointer. -/
  | nilDeref : Fault
  /-- An explicit call `panic(msg)`. -/
  | panic (msg : String) : Fault
  /-- An address that names no allocated variable; no Go pointer value has one. -/
  | wild : Fault
deriving DecidableEq, Repr

/-- A Go pointer of type `*T`. -/
inductive Ptr where
  /-- The nil pointer. -/
  | nil : Ptr
  /-- The address `&x` of the `T` variable number `a`. -/
  | var (a : Nat) : Ptr
  /-- The address `&o.value` of the payload field of the `Optional[T]` variable number `a`. -/
  | value (a : Nat) : Ptr
deriving DecidableEq, Repr

/-- A Go pointer of type `*Optional[T]`. -/
inductive OptPtr where
  /-- The nil pointer. -/
  | nil : OptPtr
  /-- The address `&o` of the `Optional[T]` variable number `a`. -/
  | addr (a : Nat) : OptPtr
deriving DecidableEq, Repr

/-- The memory: the allocated variables of type `T` and of type `Optional[T]`. -/
structure Mem (T : Type) where
  vars : List T
  opts : List (Optional T)
deriving DecidableEq, Repr

variable {T U W : Type}

/-- Equality of outcomes is decidable, so that concrete runs can be evaluated. -/
instance decEqOutcome {E A : Type} [DecidableEq E] [DecidableEq A] : DecidableEq (Except E A)
  | Except.ok a, Except.ok b =>
    if h : a = b then isTrue (by rw [h]) else isFalse (fun h1 => h (Except.ok.inj h1))
  | Except.error a, Except.error b =>
    if h : a = b then isTrue (by rw [h]) else isFalse (fun h1 => h (Except.error.inj h1))
  | Except.ok _, Except.error _ => isFalse (fun h => Except.noConfusion h)
  | Except.error _, Except.ok _ => isFalse (fun h => Except.noConfusion h)

/-- Read `*p` for `p : *T`. -/
def Mem.load (m : Mem T) : Ptr → Except Fault T
  | Ptr.nil => Except.error Fault.nilDeref
  | Ptr.var a =>
    match m.vars[a]? with
    | some v => Except.ok v
    | none => Except.error Fault.wild
  | Ptr.value a =>
    match m.opts[a]? with
    | some o => Except.ok o.value
    | none => Except.error Fault.wild

/-- Write `*p = w` for `p : *T`. A write through `&o.value` changes the payload of `o` only. -/
def Mem.store (m : Mem T) (p : Ptr) (w : T) : Except Fault (Mem T) :=
  match p with
  | Ptr.nil => Except.error Fault.nilDeref
  | Ptr.var a =>
    match m.vars[a]? with
    | some _ => Except.ok ⟨m.vars.set a w, m.opts⟩
    | none => Except.error Fault.wild
  | Ptr.value a =>
    match m.opts[a]? with
    | some o => Except.ok ⟨m.vars, m.opts.set a ⟨w, o.present⟩⟩
    | none => Except.error Fault.wild

/-- Read `*o` for `o : *Optional[T]`. -/
def Mem.loadOpt (m : Mem T) : OptPtr → Except Fault (Optional T)
  | OptPtr.nil => Except.error Fault.nilDeref
  | OptPtr.addr a =>
    match m.opts[a]? with
    | some o => Except.ok o
    | none => Except.error Fault.wild

/-- The address `&o.value` for `o : *Optional[T]`; it panics when `o` is nil. -/
def OptPtr.valueField : OptPtr → Except Fault Ptr
  | OptPtr.nil => Except.error Fault.nilDeref
  | OptPtr.addr a => Except.ok (Ptr.value a)

/-- Declare a new variable `x := v` of type `T`; returns `&x`. -/
def Mem.newVar (m : Mem T) (v : T) : Ptr × Mem T :=
  (Ptr.var m.vars.length, ⟨m.vars ++ [v], m.opts⟩)

/-- Declare a new variable `x := o` of type `Optional[T]` (a copy of both fields); returns `&x`. -/
def Mem.newOpt (m : Mem T) (o : Optional T) : OptPtr × Mem T :=
  (OptPtr.addr m.opts.length, ⟨m.vars, m.opts ++ [o]⟩)

/-- A Go callback `func(A) B`: it may read and write the world `W` and may panic. -/
abbrev Fn (W A B : Type) : Type := A → W → Except Fault (B × W)

/-- The callback that computes the pure function `f` and has no effect. -/
def Fn.pure (f : T → U) : Fn W T U := fun x w => Except.ok (f x, w)

/-- The callback `func(p *T) B { return f(*p) }`. -/
def Fn.deref (f : Fn (Mem T) T U) : Fn (Mem T) Ptr U := fun p m =>
  match m.load p with
  | Except.ok v => f v m
  | Except.error e => Except.error e

/-- A callback is total when it returns on every argument in every world. -/
def Fn.Total {A B : Type} (f : Fn W A B) : Prop := ∀ x w, ∃ r, f x w = Except.ok r

/-- A pointer callback is total when it returns on every pointer that can be read. -/
def Fn.TotalOnLive {B : Type} (f : Fn (Mem T) Ptr B) : Prop :=
  ∀ (q : Ptr) (m : Mem T), (∃ v, m.load q = Except.ok v) → ∃ r, f q m = Except.ok r

/-! ## The package -/

/-- `Of` returns an optional of a value that is present. -/
def Of (value : T) : Optional T := ⟨value, true⟩

/-- `Empty` returns an optional that is missing: the zero value of the struct. -/
def Empty [Inhabited T] : Optional T := ⟨default, false⟩

/-- `OfPointer` is present if the pointer is non-nil, otherwise missing. -/
def OfPointer [Inhabited T] (ptr : Ptr) (m : Mem T) : Except Fault (Optional T) :=
  if ptr = Ptr.nil then
    Except.ok Empty
  else
    match m.load ptr with
    | Except.ok v => Except.ok (Of v)
    | Except.error e => Except.error e

/-- The method `(o *Optional[T]) Present`. -/
def Present (o : OptPtr) (m : Mem T) : Except Fault Bool :=
  match m.loadOpt o with
  | Except.ok s => Except.ok s.present
  | Except.error e => Except.error e

/-- The message `GetOrPanic` panics with. -/
def missingMsg : String := "GetOrPanic called on missing Optional"

/-- The method `(o *Optional[T]) GetOrPanic`. -/
def GetOrPanic (o : OptPtr) (m : Mem T) : Except Fault T :=
  match m.loadOpt o with
  | Except.ok s =>
    if !s.present then
      Except.error (Fault.panic missingMsg)
    else
      Except.ok s.value
  | Except.error e => Except.error e

/-- The method `(o *Optional[T]) GetOrDefault`. -/
def GetOrDefault (o : OptPtr) (default_ : T) (m : Mem T) : Except Fault T :=
  match m.loadOpt o with
  | Except.ok s =>
    if !s.present then
      Except.ok default_
    else
      Except.ok s.value
  | Except.error e => Except.error e

/-- The method `(o *Optional[T]) AsPointer`: the address of the payload field itself. -/
def AsPointer (o : OptPtr) (m : Mem T) : Except Fault Ptr :=
  match m.loadOpt o with
  | Except.ok s =>
    if !s.present then
      Except.ok Ptr.nil
    else
      o.valueField
  | Except.error e => Except.error e

/-- The method `(o *Optional[T]) AsCopyPointer`: the address of a new local `value := o.value`. -/
def AsCopyPointer (o : OptPtr) (m : Mem T) : Except Fault (Ptr × Mem T) :=
  match m.loadOpt o with
  | Except.ok s =>
    if !s.present then
      Except.ok (Ptr.nil, m)
    else
      Except.ok (m.newVar s.value)
  | Except.error e => Except.error e

/-- `Apply` takes the optional by value and wraps the callback's result. -/
def Apply [Inhabited U] (f : Fn W T U) (o : Optional T) (w : W) :
    Except Fault (Optional U × W) :=
  if !o.present then
    Except.ok (Empty, w)
  else
    match f o.value w with
    | Except.ok (u, w1) => Except.ok (Of u, w1)
    | Except.error e => Except.error e

/-- `ApplyPtr` takes the optional by pointer and hands the callback `&o.value`. -/
def ApplyPtr [Inhabited U] (f : Fn (Mem T) Ptr U) (o : OptPtr) (m : Mem T) :
    Except Fault (Optional U × Mem T) :=
  match m.loadOpt o with
  | Except.ok s =>
    if !s.present then
      Except.ok (Empty, m)
    else
      match o.valueField with
      | Except.ok p =>
        match f p m with
        | Except.ok (u, m1) => Except.ok (Of u, m1)
        | Except.error e => Except.error e
      | Except.error e => Except.error e
  | Except.error e => Except.error e

/-- `Map` takes the optional by value and returns the callback's optional as it is. -/
def Map [Inhabited U] (f : Fn W T (Optional U)) (o : Optional T) (w : W) :
    Except Fault (Optional U × W) :=
  if !o.present then
    Except.ok (Empty, w)
  else
    f o.value w

/-- `MapPtr` takes the optional by pointer and hands the callback `&o.value`. -/
def MapPtr [Inhabited U] (f : Fn (Mem T) Ptr (Optional U)) (o : OptPtr) (m : Mem T) :
    Except Fault (Optional U × Mem T) :=
  match m.loadOpt o with
  | Except.ok s =>
    if !s.present then
      Except.ok (Empty, m)
    else
      match o.valueField with
      | Except.ok p => f p m
      | Except.error e => Except.error e
  | Except.error e => Except.error e

/-! ## The callbacks of the test suite -/

/-- The test callback `addOne`. -/
def addOne : Fn W Int Int := Fn.pure (fun x => x + 1)

/-- The test callback `addOnePtr`. -/
def addOnePtr : Fn (Mem Int) Ptr Int := Fn.deref addOne

/-- The test callback `addOneOptional`. -/
def addOneOptional : Fn W Int (Optional Int) := Fn.pure (fun x => Of (x + 1))

/-- The test callback `alwaysEmpty`. -/
def alwaysEmpty : Fn W Int (Optional Int) := Fn.pure (fun _ => Empty)

/-- The empty memory. -/
def Mem.empty : Mem T := ⟨[], []⟩

/-! ## Client code: derived callbacks, call sequences and the zero-value invariant -/

/-- The callback `func(p *T) U { *p = w; return u }`: it writes through its argument. -/
def Fn.write (w : T) (u : U) : Fn (Mem T) Ptr U := fun p m =>
  match m.store p w with
  | Except.ok m1 => Except.ok (u, m1)
  | Except.error e => Except.error e

/-- The callback `func(x T) Optional[U] { return Of(f(x)) }`. -/
def Fn.wrapOf (f : Fn W T U) : Fn W T (Optional U) := fun x w =>
  match f x w with
  | Except.ok (u, w1) => Except.ok (Of u, w1)
  | Except.error e => Except.error e

/-- The callback `func(x T) Optional[V] { return Map(g, f(x)) }`. -/
def Fn.thenMap {V : Type} [Inhabited V] (f : Fn W T (Optional U)) (g : Fn W U (Optional V)) :
    Fn W T (Optional V) := fun x w =>
  match f x w with
  | Except.ok (r, w1) => Map g r w1
  | Except.error e => Except.error e

/-- The client expression `Map(g, Map(f, o))`. -/
def MapMap {V : Type} [Inhabited U] [Inhabited V] (f : Fn W T (Optional U))
    (g : Fn W U (Optional V)) (o : Optional T) (w : W) : Except Fault (Optional V × W) :=
  match Map f o w with
  | Except.ok (r, w1) => Map g r w1
  | Except.error e => Except.error e

/-- The invariant of the data model: an absent optional holds the zero value of `T`. -/
def Optional.ZeroWhenAbsent [Inhabited T] (o : Optional T) : Prop :=
  o.present = false → o.value = default

/-- The invariant can be evaluated. -/
instance decZeroWhenAbsent [Inhabited T] [DecidableEq T] (o : Optional T) :
    Decidable o.ZeroWhenAbsent :=
  if hp : o.present = false then
    if hv : o.value = default then isTrue (fun _ => hv) else isFalse (fun h => hv (h hp))
  else isTrue (fun h => absurd h hp)

/-- The optionals built through the public API: the results of `Of`, `Empty`, `OfPointer`,
and of `Apply`, `ApplyPtr`, `Map`, `MapPtr` on built optionals, the callbacks of `Map` and
`MapPtr` returning built optionals only. -/
inductive Built : {T : Type} → [Inhabited T] → Optional T → Prop where
  | of {T : Type} [Inhabited T] (v : T) : Built (Of v)
  | empty {T : Type} [Inhabited T] : Built (Empty : Optional T)
  | ofPointer {T : Type} [Inhabited T] (ptr : Ptr) (m : Mem T) (r : Optional T) :
      OfPointer ptr m = Except.ok r → Built r
  | apply {T U W : Type} [Inhabited T] [Inhabited U] (f : Fn W T U) (o : Optional T)
      (w w1 : W) (r : Optional U) :
      Built o → Apply f o w = Except.ok (r, w1) → Built r
  | applyPtr {T U : Type} [Inhabited T] [Inhabited U] (f : Fn (Mem T) Ptr U) (p : OptPtr)
      (o : Optional T) (m m1 : Mem T) (r : Optional U) :
      m.loadOpt p = Except.ok o → Built o → ApplyPtr f p m = Except.ok (r, m1) → Built r
  | map {T U W : Type} [Inhabited T] [Inhabited U] (f : Fn W T (Optional U)) (o : Optional T)
      (w w1 : W) (r : Optional U) :
      Built o → (∀ x w0 r0 w2, f x w0 = Except.ok (r0, w2) → Built r0) →
      Map f o w = Except.ok (r, w1) → Built r
  | mapPtr {T U : Type} [Inhabited T] [Inhabited U] (f : Fn (Mem T) Ptr (Optional U))
      (p : OptPtr) (o : Optional T) (m m1 : Mem T) (r : Optional U) :
      m.loadOpt p = Except.ok o → Built o →
      (∀ q m0 r0 m2, f q m0 = Except.ok (r0, m2) → Built r0) →
      MapPtr f p m = Except.ok (r, m1) → Built r

/-- A call of one of the read-only accessors. -/
inductive Access (T : Type) where
  /-- The call `o.Present()`. -/
  | present : Access T
  /-- The call `o.GetOrPanic()`. -/
  | getOrPanic : Access T
  /-- The call `o.GetOrDefault(d)`. -/
  | getOrDefault (d : T) : Access T
  /-- The call `o.AsCopyPointer()`. -/
  | asCopyPointer : Access T

/-- What a call of an accessor returns. -/
inductive Answer (T : Type) where
  | flag (b : Bool) : Answer T
  | val (v : T) : Answer T
  | ptr (q : Ptr) : Answer T
deriving DecidableEq, Repr

/-- Run one accessor call on the receiver `o`; the result is its answer and the memory after
the call. `Present`, `GetOrPanic` and `GetOrDefault` contain no assignment and no allocation,
`AsCopyPointer` allocates its local. -/
def Access.call (c : Access T) (o : OptPtr) (m : Mem T) : Except Fault (Answer T × Mem T) :=
  match c with
  | Access.present =>
    match Present o m with
    | Except.ok b => Except.ok (Answer.flag b, m)
    | Except.error e => Except.error e
  | Access.getOrPanic =>
    match GetOrPanic o m with
    | Except.ok v => Except.ok (Answer.val v, m)
    | Except.error e => Except.error e
  | Access.getOrDefault d =>
    match GetOrDefault o d m with
    | Except.ok v => Except.ok (Answer.val v, m)
    | Except.error e => Except.error e
  | Access.asCopyPointer =>
    match AsCopyPointer o m with
    | Except.ok (q, m1) => Except.ok (Answer.ptr q, m1)
    | Except.error e => Except.error e

/-- Run a sequence of accessor calls on the same receiver, one after the other. -/
def callAll : List (Access T) → OptPtr → Mem T → Except Fault (List (Answer T) × Mem T)
  | [], _, m => Except.ok ([], m)
  | c :: cs, o, m =>
    match c.call o m with
    | Except.ok (r, m1) =>
      match callAll cs o m1 with
      | Except.ok (rs, m2) => Except.ok (r :: rs, m2)
      | Except.error e => Except.error e
    | Except.error e => Except.error e

/-! ## Memory lemmas -/

theorem loadOpt_newOpt (m : Mem T) (o : Optional T) :
    (m.newOpt o).2.loadOpt (m.newOpt o).1 = Except.ok o := by
  simp [Mem.newOpt, Mem.loadOpt]

theorem loadOpt_ok_iff (m : Mem T) (p : OptPtr) (o : Optional T) :
    m.loadOpt p = Except.ok o ↔ ∃ a, p = OptPtr.addr a ∧ m.opts[a]? = some o := by
  cases p with
  | nil => simp [Mem.loadOpt]
  | addr a =>
    cases h : m.opts[a]? with
    | none => simp [Mem.loadOpt, h]
    | some s => simp [Mem.loadOpt, h]

theorem load_ok_ne_nil (m : Mem T) (q : Ptr) (v : T) (h : m.load q = Except.ok v) :
    q ≠ Ptr.nil := by
  rintro rfl
  simp [Mem.load] at h

/-- A readable pointer stays readable, with the same referent, when a variable is declared. -/
theorem load_newOpt (m : Mem T) (o : Optional T) (q : Ptr) (v : T)
    (h : m.load q = Except.ok v) : (m.newOpt o).2.load q = Except.ok v := by
  cases q with
  | nil => simp [Mem.load] at h
  | var a => simpa [Mem.load, Mem.newOpt] using h
  | value a =>
    cases ha : m.opts[a]? with
    | none => simp [Mem.load, ha] at h
    | some s =>
      have hlt : a < m.opts.length := by
        by_contra hge
        rw [List.getElem?_eq_none (not_lt.1 hge)] at ha
        exact Option.noConfusion ha
      simp only [Mem.load, ha] at h
      simp [Mem.load, Mem.newOpt, List.getElem?_append_left hlt, ha, h]

/-- A write through a readable pointer succeeds, and the pointer then reads what was written. -/
theorem store_of_load (m : Mem T) (q : Ptr) (v w : T) (h : m.load q = Except.ok v) :
    ∃ m1, m.store q w = Except.ok m1 ∧ m1.load q = Except.ok w := by
  cases q with
  | nil => simp [Mem.load] at h
  | var a =>
    cases ha : m.vars[a]? with
    | none => simp [Mem.load, ha] at h
    | some s =>
      have hlt : a < m.vars.length := by
        by_contra hge
        rw [List.getElem?_eq_none (not_lt.1 hge)] at ha
        exact Option.noConfusion ha
      exact ⟨⟨m.vars.set a w, m.opts⟩, by simp [Mem.store, ha], by simp [Mem.load, hlt]⟩
  | value a =>
    cases ha : m.opts[a]? with
    | none => simp [Mem.load, ha] at h
    | some s =>
      have hlt : a < m.opts.length := by
        by_contra hge
        rw [List.getElem?_eq_none (not_lt.1 hge)] at ha
        exact Option.noConfusion ha
      exact ⟨⟨m.vars, m.opts.set a ⟨w, s.present⟩⟩, by simp [Mem.store, ha],
        by simp [Mem.load, hlt]⟩

/-- Frame rule: a write through `q` leaves every optional variable alone, except the one
whose payload field `q` is the address of. -/
theorem loadOpt_store_ne (m m1 : Mem T) (q : Ptr) (w : T) (a : Nat)
    (h : m.store q w = Except.ok m1) (hne : q ≠ Ptr.value a) :
    m1.loadOpt (OptPtr.addr a) = m.loadOpt (OptPtr.addr a) := by
  cases q with
  | nil => simp [Mem.store] at h
  | var b =>
    cases hb : m.vars[b]? with
    | none => simp [Mem.store, hb] at h
    | some s =>
      simp only [Mem.store, hb, Except.ok.injEq] at h
      subst h
      rfl
  | value b =>
    cases hb : m.opts[b]? with
    | none => simp [Mem.store, hb] at h
    | some s =>
      simp only [Mem.store, hb, Except.ok.injEq] at h
      subst h
      have hba : b ≠ a := fun e => hne (by rw [e])
      simp [Mem.loadOpt, List.getElem?_set_ne hba]

/-- A write through `&o.value` replaces the payload of `o` and keeps its flag. -/
theorem loadOpt_store_value (m : Mem T) (a : Nat) (o : Optional T) (w : T)
    (h : m.loadOpt (OptPtr.addr a) = Except.ok o) :
    ∃ m1, m.store (Ptr.value a) w = Except.ok m1
      ∧ m1.loadOpt (OptPtr.addr a) = Except.ok ⟨w, o.present⟩ := by
  obtain ⟨b, hb, ha⟩ := (loadOpt_ok_iff m _ o).1 h
  cases hb
  have hlt : a < m.opts.length := by
    by_contra hge
    rw [List.getElem?_eq_none (not_lt.1 hge)] at ha
    exact Option.noConfusion ha
  exact ⟨⟨m.vars, m.opts.set a ⟨w, o.present⟩⟩, by simp [Mem.store, ha],
    by simp [Mem.loadOpt, hlt]⟩

/-- A pointer that can be read in `m` is not the payload address of a variable declared later. -/
theorem load_ok_ne_fresh (m : Mem T) (q : Ptr) (v : T) (h : m.load q = Except.ok v) :
    q ≠ Ptr.value m.opts.length := by
  rintro rfl
  simp [Mem.load] at h

/-! ## The methods on a live receiver -/

theorem Present_of_load (m : Mem T) (p : OptPtr) (o : Optional T)
    (h : m.loadOpt p = Except.ok o) : Present p m = Except.ok o.present := by
  simp [Present, h]

theorem GetOrPanic_of_load (m : Mem T) (p : OptPtr) (o : Optional T)
    (h : m.loadOpt p = Except.ok o) :
    GetOrPanic p m =
      if o.present then Except.ok o.value else Except.error (Fault.panic missingMsg) := by
  cases hp : o.present <;> simp [GetOrPanic, h, hp]

theorem GetOrDefault_of_load (m : Mem T) (p : OptPtr) (d : T) (o : Optional T)
    (h : m.loadOpt p = Except.ok o) :
    GetOrDefault p d m = Except.ok (if o.present then o.value else d) := by
  cases hp : o.present <;> simp [GetOrDefault, h, hp]

/-! ## The contract -/

/-- C1: for an optional `o` held in a variable that `p` points to, `GetOrPanic` terminates
abnormally exactly when `o` is absent, and then with its own panic; when `o` is present it
returns the held value. So `Of(v).GetOrPanic()` is `v` and `Empty().GetOrPanic()` panics. -/
theorem GetOrPanic_contract [Inhabited T] (m : Mem T) (p : OptPtr) (o : Optional T)
    (h : m.loadOpt p = Except.ok o) :
    ((∃ e, GetOrPanic p m = Except.error e) ↔ o.present = false)
    ∧ (o.present = false → GetOrPanic p m = Except.error (Fault.panic missingMsg))
    ∧ (o.present = true → GetOrPanic p m = Except.ok o.value)
    ∧ (∀ v : T, GetOrPanic (m.newOpt (Of v)).1 (m.newOpt (Of v)).2 = Except.ok v)
    ∧ GetOrPanic (m.newOpt (Empty : Optional T)).1 (m.newOpt (Empty : Optional T)).2
        = Except.error (Fault.panic missingMsg) := by
  have hg := GetOrPanic_of_load m p o h
  refine ⟨?_, ?_, ?_, ?_, ?_⟩
  · cases hp : o.present <;> simp [hg, hp]
  · intro hp
    simp [hg, hp]
  · intro hp
    simp [hg, hp]
  · intro v
    rw [GetOrPanic_of_load _ _ _ (loadOpt_newOpt m (Of v))]
    simp [Of]
  · rw [GetOrPanic_of_load _ _ _ (loadOpt_newOpt m Empty)]
    simp [Empty]

/-- C1, at the test suite's inputs: `Of(1).GetOrPanic()` is `1`. -/
theorem GetOrPanic_contract_witness :
    (Mem.mk [] [Of (1 : Int)]).loadOpt (OptPtr.addr 0) = Except.ok (Of 1)
    ∧ GetOrPanic (OptPtr.addr 0) (Mem.mk [] [Of (1 : Int)]) = Except.ok 1 :=
  ⟨by decide, (GetOrPanic_contract (Mem.mk [] [Of (1 : Int)]) (OptPtr.addr 0) (Of 1)
    (by decide)).2.2.1 rfl⟩

theorem load_valueField (m : Mem T) (p : OptPtr) (o : Optional T)
    (h : m.loadOpt p = Except.ok o) :
    ∃ q, p.valueField = Except.ok q ∧ q ≠ Ptr.nil ∧ m.load q = Except.ok o.value := by
  obtain ⟨a, rfl, ha⟩ := (loadOpt_ok_iff m p o).1 h
  exact ⟨Ptr.value a, rfl, by simp, by simp [Mem.load, ha]⟩

/-- C2, as stated, fails: `Present`, `GetOrDefault`, `AsPointer`, `AsCopyPointer`, `ApplyPtr`
and `MapPtr` take a `*Optional[T]`, and on the nil pointer each of them reads `o.present`
and panics, also with a callback that always returns. -/
theorem total_fails_on_nil_receiver :
    Present OptPtr.nil (Mem.empty : Mem Int) = Except.error Fault.nilDeref
    ∧ GetOrDefault OptPtr.nil 2 (Mem.empty : Mem Int) = Except.error Fault.nilDeref
    ∧ AsPointer OptPtr.nil (Mem.empty : Mem Int) = Except.error Fault.nilDeref
    ∧ AsCopyPointer OptPtr.nil (Mem.empty : Mem Int) = Except.error Fault.nilDeref
    ∧ ApplyPtr (Fn.pure (fun _ => (0 : Int))) OptPtr.nil (Mem.empty : Mem Int)
        = Except.error Fault.nilDeref
    ∧ MapPtr (Fn.pure (fun _ => Of (0 : Int))) OptPtr.nil (Mem.empty : Mem Int)
        = Except.error Fault.nilDeref
    ∧ Fn.TotalOnLive (Fn.pure (fun _ => (0 : Int)) : Fn (Mem Int) Ptr Int) := by
  refine ⟨by decide, by decide, by decide, by decide, by decide, by decide, ?_⟩
  intro q m _
  exact ⟨_, rfl⟩

/-- C2, amended: on a receiver or argument `p : *Optional[T]` that points to a live optional
`o`, with `ptr : *T` nil or readable and with total callbacks, `OfPointer`, `Present`,
`GetOrDefault`, `AsPointer`, `AsCopyPointer`, `Apply`, `ApplyPtr`, `Map` and `MapPtr` return a
result, and the only fault `GetOrPanic` can end in is its own panic on an absent `o`.
(`Of` and `Empty` build a struct value and have no failure path at all.) -/
theorem total_on_live_receiver [Inhabited T] [Inhabited U] (m : Mem T) (p : OptPtr)
    (o : Optional T) (h : m.loadOpt p = Except.ok o) :
    (∀ ptr : Ptr, (ptr = Ptr.nil ∨ ∃ v, m.load ptr = Except.ok v) →
        ∃ r, OfPointer ptr m = Except.ok r)
    ∧ (∃ r, Present p m = Except.ok r)
    ∧ (∀ d, ∃ r, GetOrDefault p d m = Except.ok r)
    ∧ (∃ r, AsPointer p m = Except.ok r)
    ∧ (∃ r, AsCopyPointer p m = Except.ok r)
    ∧ (∀ (f : Fn W T U) (w : W), f.Total → ∃ r, Apply f o w = Except.ok r)
    ∧ (∀ f : Fn (Mem T) Ptr U, f.TotalOnLive → ∃ r, ApplyPtr f p m = Except.ok r)
    ∧ (∀ (f : Fn W T (Optional U)) (w : W), f.Total → ∃ r, Map f o w = Except.ok r)
    ∧ (∀ f : Fn (Mem T) Ptr (Optional U), f.TotalOnLive → ∃ r, MapPtr f p m = Except.ok r)
    ∧ (∀ e, GetOrPanic p m = Except.error e →
        o.present = false ∧ e = Fault.panic missingMsg) := by
  obtain ⟨q, hq, _, hload⟩ := load_valueField m p o h
  refine ⟨?_, ?_, ?_, ?_, ?_, ?_, ?_, ?_, ?_, ?_⟩
  · rintro ptr (rfl | ⟨v, hv⟩)
    · exact ⟨Empty, by simp [OfPointer]⟩
    · refine ⟨Of v, ?_⟩
      have hne : ptr ≠ Ptr.nil := by
        rintro rfl
        simp [Mem.load] at hv
      simp [OfPointer, hne, hv]
  · exact ⟨_, Present_of_load m p o h⟩
  · intro d
    exact ⟨_, GetOrDefault_of_load m p d o h⟩
  · cases hp : o.present
    · exact ⟨Ptr.nil, by simp [AsPointer, h, hp]⟩
    · exact ⟨q, by simp [AsPointer, h, hp, hq]⟩
  · cases hp : o.present
    · exact ⟨(Ptr.nil, m), by simp [AsCopyPointer, h, hp]⟩
    · exact ⟨m.newVar o.value, by simp [AsCopyPointer, h, hp]⟩
  · intro f w hf
    cases hp : o.present
    · exact ⟨(Empty, w), by simp [Apply, hp]⟩
    · obtain ⟨⟨u, w1⟩, hr⟩ := hf o.value w
      exact ⟨(Of u, w1), by simp [Apply, hp, hr]⟩
  · intro f hf
    cases hp : o.present
    · exact ⟨(Empty, m), by simp [ApplyPtr, h, hp]⟩
    · obtain ⟨⟨u, m1⟩, hr⟩ := hf q m ⟨_, hload⟩
      exact ⟨(Of u, m1), by simp [ApplyPtr, h, hp, hq, hr]⟩
  · intro f w hf
    cases hp : o.present
    · exact ⟨(Empty, w), by simp [Map, hp]⟩
    · obtain ⟨r, hr⟩ := hf o.value w
      exact ⟨r, by simp [Map, hp, hr]⟩
  · intro f hf
    cases hp : o.present
    · exact ⟨(Empty, m), by simp [MapPtr, h, hp]⟩
    · obtain ⟨r, hr⟩ := hf q m ⟨_, hload⟩
      exact ⟨r, by simp [MapPtr, h, hp, hq, hr]⟩
  · intro e he
    rw [GetOrPanic_of_load m p o h] at he
    cases hp : o.present
    · simp [hp] at he
      exact ⟨rfl, he.symm⟩
    · simp [hp] at he

/-- C2, at the test suite's inputs: `ApplyPtr(addOnePtr, &x)` returns for `x := Of(1)`. -/
theorem total_on_live_receiver_witness :
    (Mem.mk [] [Of (1 : Int)]).loadOpt (OptPtr.addr 0) = Except.ok (Of 1)
    ∧ (addOnePtr : Fn (Mem Int) Ptr Int).TotalOnLive
    ∧ ∃ r, ApplyPtr addOnePtr (OptPtr.addr 0) (Mem.mk [] [Of (1 : Int)]) = Except.ok r :=
  have ht : (addOnePtr : Fn (Mem Int) Ptr Int).TotalOnLive := by
    rintro q m ⟨v, hv⟩
    exact ⟨(v + 1, m), by simp [addOnePtr, Fn.deref, hv, addOne, Fn.pure]⟩
  ⟨by decide, ht,
    (@total_on_live_receiver Int Int Unit _ _ (Mem.mk [] [Of (1 : Int)]) (OptPtr.addr 0) (Of 1)
      (by decide)).2.2.2.2.2.2.1 addOnePtr ht⟩

/-- C3: `OfPointer(nil)` is `Empty()`, not present, although reading `*nil` would panic; for a
non-nil `ptr` whose referent is `v`, `OfPointer(ptr)` is `Of(v)`: stored in a variable it is
present and `GetOrPanic` returns `v`, and it is a copy, unchanged by a later write `*ptr = w`. -/
theorem OfPointer_contract [Inhabited T] (m : Mem T) :
    OfPointer Ptr.nil m = Except.ok Empty
    ∧ m.load Ptr.nil = Except.error Fault.nilDeref
    ∧ Present (m.newOpt (Empty : Optional T)).1 (m.newOpt (Empty : Optional T)).2
        = Except.ok false
    ∧ ∀ (ptr : Ptr) (v : T), ptr ≠ Ptr.nil → m.load ptr = Except.ok v →
        OfPointer ptr m = Except.ok (Of v)
        ∧ Present (m.newOpt (Of v)).1 (m.newOpt (Of v)).2 = Except.ok true
        ∧ GetOrPanic (m.newOpt (Of v)).1 (m.newOpt (Of v)).2 = Except.ok v
        ∧ ∀ w : T, ∃ m2, (m.newOpt (Of v)).2.store ptr w = Except.ok m2
            ∧ m2.load ptr = Except.ok w
            ∧ GetOrPanic (m.newOpt (Of v)).1 m2 = Except.ok v := by
  refine ⟨by simp [OfPointer], rfl, ?_, ?_⟩
  · rw [Present_of_load _ _ _ (loadOpt_newOpt m Empty)]
    rfl
  · intro ptr v hne hv
    have hy := loadOpt_newOpt m (Of v)
    refine ⟨by simp [OfPointer, hne, hv], ?_, ?_, ?_⟩
    · rw [Present_of_load _ _ _ hy]
      rfl
    · rw [GetOrPanic_of_load _ _ _ hy]
      rfl
    · intro w
      obtain ⟨m2, hs, hl⟩ := store_of_load _ ptr v w (load_newOpt m (Of v) ptr v hv)
      refine ⟨m2, hs, hl, ?_⟩
      have hfr := loadOpt_store_ne _ m2 ptr w m.opts.length hs (load_ok_ne_fresh m ptr v hv)
      have hy2 : m2.loadOpt (m.newOpt (Of v)).1 = Except.ok (Of v) := by
        rw [← hy]
        exact hfr
      rw [GetOrPanic_of_load _ _ _ hy2]
      rfl

/-- C3, at the test suite's inputs: `x := 1; y := OfPointer(&x)` is `Of(1)`. -/
theorem OfPointer_contract_witness :
    Ptr.var 0 ≠ Ptr.nil ∧ (Mem.mk [(1 : Int)] []).load (Ptr.var 0) = Except.ok 1
    ∧ OfPointer (Ptr.var 0) (Mem.mk [(1 : Int)] []) = Except.ok (Of 1) :=
  ⟨by decide, by decide,
    ((OfPointer_contract (Mem.mk [(1 : Int)] [])).2.2.2 (Ptr.var 0) 1 (by decide)
      (by decide)).1⟩

/-- C4: on an absent `o`, `Apply(f, o)` is the empty optional and leaves the world as it was,
whatever `f` is, also an `f` that panics or writes on every input: `f` is not invoked. On a
present `o` holding `v`, `Apply(f, o)` is `Of(f(v))`: stored in a variable it is present and
`GetOrPanic` returns `f(v)`. -/
theorem Apply_contract [Inhabited U] (o : Optional T) (w : W) :
    (o.present = false → ∀ f : Fn W T U, Apply f o w = Except.ok (Empty, w))
    ∧ (o.present = false →
        Apply (fun _ _ => Except.error (Fault.panic "f invoked") : Fn W T U) o w
          = Except.ok (Empty, w))
    ∧ (o.present = true → ∀ (f : Fn W T U) (u : U) (w1 : W),
        f o.value w = Except.ok (u, w1) → Apply f o w = Except.ok (Of u, w1))
    ∧ (o.present = true → ∀ (f : Fn W T U) (e : Fault),
        f o.value w = Except.error e → Apply f o w = Except.error e)
    ∧ (o.present = true → ∀ g : T → U,
        Apply (Fn.pure g) o w = Except.ok (Of (g o.value), w))
    ∧ (∀ (u : U) (mu : Mem U),
        Present (mu.newOpt (Of u)).1 (mu.newOpt (Of u)).2 = Except.ok true
        ∧ GetOrPanic (mu.newOpt (Of u)).1 (mu.newOpt (Of u)).2 = Except.ok u) := by
  refine ⟨?_, ?_, ?_, ?_, ?_, ?_⟩
  · intro hp f
    simp [Apply, hp]
  · intro hp
    simp [Apply, hp]
  · intro hp f u w1 hf
    simp [Apply, hp, hf]
  · intro hp f e hf
    simp [Apply, hp, hf]
  · intro hp g
    simp [Apply, hp, Fn.pure]
  · intro u mu
    have hy := loadOpt_newOpt mu (Of u)
    rw [Present_of_load _ _ _ hy, GetOrPanic_of_load _ _ _ hy]
    exact ⟨rfl, rfl⟩

/-- C4, at the test suite's inputs: `Apply(addOne, Of(1))` is `Of(2)`, and `Apply` on
`Empty()` is empty for a callback that always panics. -/
theorem Apply_contract_witness :
    (Of (1 : Int)).present = true
    ∧ Apply (Fn.pure (fun x => x + 1)) (Of (1 : Int)) () = Except.ok (Of (2 : Int), ())
    ∧ (Empty : Optional Int).present = false
    ∧ Apply (fun _ _ => Except.error (Fault.panic "f invoked") : Fn Unit Int Int) Empty ()
        = Except.ok (Empty, ()) :=
  ⟨rfl, (Apply_contract (Of (1 : Int)) ()).2.2.2.2.1 rfl (fun x => x + 1),
    rfl, (Apply_contract (Empty : Optional Int) ()).2.1 rfl⟩

/-- C5: on an absent `o`, `Map(f, o)` is the empty optional and leaves the world as it was,
whatever `f` is: `f` is not invoked. On a present `o` holding `v`, `Map(f, o)` is exactly
`f(v)`, with no wrapping. So the result is present iff `o` is present and `f(v)` is
present, and with an `f` that always returns empty the result is empty. -/
theorem Map_contract [Inhabited U] (o : Optional T) (w : W) :
    (o.present = false → ∀ f : Fn W T (Optional U), Map f o w = Except.ok (Empty, w))
    ∧ (o.present = false →
        Map (fun _ _ => Except.error (Fault.panic "f invoked") : Fn W T (Optional U)) o w
          = Except.ok (Empty, w))
    ∧ (o.present = true → ∀ f : Fn W T (Optional U), Map f o w = f o.value w)
    ∧ (∀ (f : Fn W T (Optional U)) (r : Optional U) (w1 : W),
        Map f o w = Except.ok (r, w1) →
          (r.present = true ↔
            o.present = true ∧ ∃ r1 w2, f o.value w = Except.ok (r1, w2) ∧ r1.present = true))
    ∧ (∀ g : T → Optional U,
        Map (Fn.pure g) o w = Except.ok (if o.present then g o.value else Empty, w))
    ∧ Map (Fn.pure (fun _ => (Empty : Optional U))) o w = Except.ok (Empty, w) := by
  refine ⟨?_, ?_, ?_, ?_, ?_, ?_⟩
  · intro hp f
    simp [Map, hp]
  · intro hp
    simp [Map, hp]
  · intro hp f
    simp [Map, hp]
  · intro f r w1 hm
    cases hp : o.present
    · simp only [Map, hp, Bool.not_false, if_true, Except.ok.injEq, Prod.mk.injEq] at hm
      rw [← hm.1]
      simp [Empty]
    · simp only [Map, hp, Bool.not_true, Bool.false_eq_true, if_false] at hm
      constructor
      · intro hr
        exact ⟨rfl, r, w1, hm, hr⟩
      · rintro ⟨_, r1, w2, hf, hr1⟩
        rw [hm] at hf
        simp only [Except.ok.injEq, Prod.mk.injEq] at hf
        rw [hf.1]
        exact hr1
  · intro g
    cases hp : o.present <;> simp [Map, hp, Fn.pure]
  · cases hp : o.present <;> simp [Map, hp, Fn.pure]

/-- C5, at the test suite's inputs: `Map(addOneOptional, Of(1))` is `Of(2)`, and `Map` on
`Empty()` is empty for a callback that always panics. -/
theorem Map_contract_witness :
    (Of (1 : Int)).present = true
    ∧ Map addOneOptional (Of (1 : Int)) () = Except.ok (Of (2 : Int), ())
    ∧ (Empty : Optional Int).present = false
    ∧ Map (fun _ _ => Except.error (Fault.panic "f invoked") : Fn Unit Int (Optional Int))
        Empty () = Except.ok (Empty, ()) :=
  ⟨rfl, ((Map_contract (Of (1 : Int)) ()).2.2.1 rfl addOneOptional).trans rfl,
    rfl, (Map_contract (Empty : Optional Int) ()).2.1 rfl⟩

/-- C6: for an optional `o` held in a variable that `p` points to, `GetOrDefault(d)` returns,
and returns the held value when `o` is present and `d` when `o` is absent; so
`Of(v).GetOrDefault(d)` is `v` and `Empty().GetOrDefault(d)` is `d`. -/
theorem GetOrDefault_contract [Inhabited T] (m : Mem T) (p : OptPtr) (o : Optional T) (d : T)
    (h : m.loadOpt p = Except.ok o) :
    (∃ r, GetOrDefault p d m = Except.ok r)
    ∧ (o.present = true → GetOrDefault p d m = Except.ok o.value)
    ∧ (o.present = false → GetOrDefault p d m = Except.ok d)
    ∧ (∀ v : T, GetOrDefault (m.newOpt (Of v)).1 d (m.newOpt (Of v)).2 = Except.ok v)
    ∧ GetOrDefault (m.newOpt (Empty : Optional T)).1 d (m.newOpt (Empty : Optional T)).2
        = Except.ok d := by
  have hg := GetOrDefault_of_load m p d o h
  refine ⟨⟨_, hg⟩, ?_, ?_, ?_, ?_⟩
  · intro hp
    simp [hg, hp]
  · intro hp
    simp [hg, hp]
  · intro v
    rw [GetOrDefault_of_load _ _ _ _ (loadOpt_newOpt m (Of v))]
    simp [Of]
  · rw [GetOrDefault_of_load _ _ _ _ (loadOpt_newOpt m Empty)]
    simp [Empty]

/-- C6, at the test suite's inputs: `Empty().GetOrDefault(2)` is `2`. -/
theorem GetOrDefault_contract_witness :
    (Mem.mk [] [(Empty : Optional Int)]).loadOpt (OptPtr.addr 0) = Except.ok Empty
    ∧ (Empty : Optional Int).present = false
    ∧ GetOrDefault (OptPtr.addr 0) 2 (Mem.mk [] [(Empty : Optional Int)]) = Except.ok 2 :=
  ⟨by decide, rfl,
    (GetOrDefault_contract (Mem.mk [] [(Empty : Optional Int)]) (OptPtr.addr 0) Empty 2
      (by decide)).2.2.1 rfl⟩

/-- C7: for a present `o` holding `v`, `AsPointer` is a non-nil pointer that reads `v`, and
after a write of any `w` through it the same instance is still present and `GetOrPanic` and
`GetOrDefault(d)` return `w`; for an absent `o` it is nil. So it is nil iff `o` is absent. -/
theorem AsPointer_contract (m : Mem T) (p : OptPtr) (o : Optional T)
    (h : m.loadOpt p = Except.ok o) :
    (o.present = true → ∃ q, AsPointer p m = Except.ok q ∧ q ≠ Ptr.nil
        ∧ m.load q = Except.ok o.value
        ∧ ∀ w : T, ∃ m1, m.store q w = Except.ok m1
            ∧ Present p m1 = Except.ok true
            ∧ GetOrPanic p m1 = Except.ok w
            ∧ ∀ d : T, GetOrDefault p d m1 = Except.ok w)
    ∧ (o.present = false → AsPointer p m = Except.ok Ptr.nil)
    ∧ (AsPointer p m = Except.ok Ptr.nil ↔ o.present = false) := by
  obtain ⟨a, rfl, ha⟩ := (loadOpt_ok_iff m p o).1 h
  have hq : AsPointer (OptPtr.addr a) m
      = Except.ok (if o.present then Ptr.value a else Ptr.nil) := by
    cases hp : o.present <;> simp [AsPointer, h, hp, OptPtr.valueField]
  refine ⟨?_, ?_, ?_⟩
  · intro hp
    refine ⟨Ptr.value a, by simp [hq, hp], by simp, by simp [Mem.load, ha], ?_⟩
    intro w
    obtain ⟨m1, hs, hl⟩ := loadOpt_store_value m a o w h
    refine ⟨m1, hs, ?_, ?_, ?_⟩
    · rw [Present_of_load _ _ _ hl]
      simp [hp]
    · rw [GetOrPanic_of_load _ _ _ hl]
      simp [hp]
    · intro d
      rw [GetOrDefault_of_load _ _ _ _ hl]
      simp [hp]
  · intro hp
    simp [hq, hp]
  · cases hp : o.present <;> simp [hq, hp]

/-- C7, at the test suite's inputs: `x := Of(1); ptr := x.AsPointer(); *ptr = 2` makes
`x.GetOrPanic()` return `2`. -/
theorem AsPointer_contract_witness :
    (Mem.mk [] [Of (1 : Int)]).loadOpt (OptPtr.addr 0) = Except.ok (Of 1)
    ∧ (Of (1 : Int)).present = true
    ∧ ∃ q, AsPointer (OptPtr.addr 0) (Mem.mk [] [Of (1 : Int)]) = Except.ok q
        ∧ q ≠ Ptr.nil
        ∧ (Mem.mk [] [Of (1 : Int)]).load q = Except.ok 1
        ∧ ∃ m1, (Mem.mk [] [Of (1 : Int)]).store q 2 = Except.ok m1
            ∧ GetOrPanic (OptPtr.addr 0) m1 = Except.ok 2 :=
  ⟨by decide, rfl,
    match (AsPointer_contract (Mem.mk [] [Of (1 : Int)]) (OptPtr.addr 0) (Of 1)
      (by decide)).1 rfl with
    | ⟨q, h1, h2, h3, h4⟩ =>
      match h4 2 with
      | ⟨m1, h5, _, h7, _⟩ => ⟨q, h1, h2, h3, m1, h5, h7⟩⟩

/-- C8: for a present `o` holding `v`, `AsCopyPointer` is a non-nil pointer to a variable that
did not exist before the call and reads `v`; the call leaves `o` and every older variable as
they were, and after a write of any `w` through the pointer `o` is unchanged and `GetOrPanic`
still returns `v`. For an absent `o` it is nil and the memory is untouched. -/
theorem AsCopyPointer_contract (m : Mem T) (p : OptPtr) (o : Optional T)
    (h : m.loadOpt p = Except.ok o) :
    (o.present = true → ∃ q m1, AsCopyPointer p m = Except.ok (q, m1) ∧ q ≠ Ptr.nil
        ∧ m.load q = Except.error Fault.wild
        ∧ m1.load q = Except.ok o.value
        ∧ m1.loadOpt p = Except.ok o
        ∧ (∀ (q1 : Ptr) (x : T), m.load q1 = Except.ok x → m1.load q1 = Except.ok x)
        ∧ ∀ w : T, ∃ m2, m1.store q w = Except.ok m2
            ∧ m2.load q = Except.ok w
            ∧ m2.loadOpt p = Except.ok o
            ∧ Present p m2 = Except.ok true
            ∧ GetOrPanic p m2 = Except.ok o.value)
    ∧ (o.present = false → AsCopyPointer p m = Except.ok (Ptr.nil, m)) := by
  obtain ⟨a, rfl, ha⟩ := (loadOpt_ok_iff m p o).1 h
  refine ⟨?_, ?_⟩
  · intro hp
    have h1 : (m.newVar o.value).2.loadOpt (OptPtr.addr a) = Except.ok o := h
    refine ⟨(m.newVar o.value).1, (m.newVar o.value).2, by simp [AsCopyPointer, h, hp],
      by simp [Mem.newVar], by simp [Mem.newVar, Mem.load], by simp [Mem.newVar, Mem.load],
      h1, ?_, ?_⟩
    · intro q1 x hx
      cases q1 with
      | nil => simp [Mem.load] at hx
      | value b => exact hx
      | var b =>
        cases hb : m.vars[b]? with
        | none => simp [Mem.load, hb] at hx
        | some s =>
          have hlt : b < m.vars.length := by
            by_contra hge
            rw [List.getElem?_eq_none (not_lt.1 hge)] at hb
            exact Option.noConfusion hb
          simp only [Mem.load, hb] at hx
          simp [Mem.load, Mem.newVar, List.getElem?_append_left hlt, hb, hx]
    · intro w
      obtain ⟨m2, hs, hl⟩ := store_of_load (m.newVar o.value).2 (m.newVar o.value).1
        o.value w (by simp [Mem.newVar, Mem.load])
      have h2 : m2.loadOpt (OptPtr.addr a) = Except.ok o := by
        rw [loadOpt_store_ne _ m2 _ w a hs (by simp [Mem.newVar])]
        exact h1
      refine ⟨m2, hs, hl, h2, ?_, ?_⟩
      · rw [Present_of_load _ _ _ h2]
        simp [hp]
      · rw [GetOrPanic_of_load _ _ _ h2]
        simp [hp]
  · intro hp
    simp [AsCopyPointer, h, hp]

/-- C8, at the test suite's inputs: `x := Of(1); ptr := x.AsCopyPointer(); *ptr = 2` leaves
`x.GetOrPanic()` at `1`. -/
theorem AsCopyPointer_contract_witness :
    (Mem.mk [] [Of (1 : Int)]).loadOpt (OptPtr.addr 0) = Except.ok (Of 1)
    ∧ (Of (1 : Int)).present = true
    ∧ ∃ q m1, AsCopyPointer (OptPtr.addr 0) (Mem.mk [] [Of (1 : Int)]) = Except.ok (q, m1)
        ∧ m1.load q = Except.ok 1
        ∧ ∃ m2, m1.store q 2 = Except.ok m2
            ∧ m2.load q = Except.ok 2
            ∧ GetOrPanic (OptPtr.addr 0) m2 = Except.ok 1 :=
  ⟨by decide, rfl,
    match (AsCopyPointer_contract (Mem.mk [] [Of (1 : Int)]) (OptPtr.addr 0) (Of 1)
      (by decide)).1 rfl with
    | ⟨q, m1, h1, _, _, h4, _, _, h7⟩ =>
      match h7 2 with
      | ⟨m2, h8, h9, _, _, h12⟩ => ⟨q, m1, h1, h4, m2, h8, h9, h12⟩⟩

/-- C9: `Of(v)` is present for every `v` and `Empty()` is not, as fields and through the
method `Present` on a variable holding them; so `Of(v)` is never `Empty()`, also for `v` the
zero value of `T`. -/
theorem Of_present_Empty_absent [Inhabited T] (m : Mem T) :
    (∀ v : T, (Of v).present = true
        ∧ Present (m.newOpt (Of v)).1 (m.newOpt (Of v)).2 = Except.ok true)
    ∧ (Empty : Optional T).present = false
    ∧ Present (m.newOpt (Empty : Optional T)).1 (m.newOpt (Empty : Optional T)).2
        = Except.ok false
    ∧ (∀ v : T, Of v ≠ Empty)
    ∧ Of (default : T) ≠ Empty := by
  have hne : ∀ v : T, Of v ≠ Empty := by
    intro v hv
    have hp : (Of v).present = (Empty : Optional T).present := by rw [hv]
    simp [Of, Empty] at hp
  refine ⟨?_, rfl, ?_, hne, hne default⟩
  · intro v
    refine ⟨rfl, ?_⟩
    rw [Present_of_load _ _ _ (loadOpt_newOpt m (Of v))]
    rfl
  · rw [Present_of_load _ _ _ (loadOpt_newOpt m Empty)]
    rfl

/-- C10: on a variable `o`, `ApplyPtr(func(p) { return f(*p) }, &o)` is `Apply(f, o)`, in its
result and in its effect, for every callback `f`; with a pure `f` the call leaves the memory,
and so `o`, as it was; on an absent `o` no callback is invoked and the result is empty. -/
theorem ApplyPtr_mirrors_Apply [Inhabited U] (m : Mem T) (p : OptPtr) (o : Optional T)
    (h : m.loadOpt p = Except.ok o) :
    (∀ f : Fn (Mem T) T U, ApplyPtr (Fn.deref f) p m = Apply f o m)
    ∧ (∀ g : T → U,
        ApplyPtr (Fn.deref (Fn.pure g)) p m
          = Except.ok (if o.present then Of (g o.value) else Empty, m)
        ∧ Apply (Fn.pure g) o m
          = Except.ok (if o.present then Of (g o.value) else Empty, m)
        ∧ ∀ r m1, ApplyPtr (Fn.deref (Fn.pure g)) p m = Except.ok (r, m1) →
            m1 = m ∧ m1.loadOpt p = Except.ok o)
    ∧ (o.present = false → ∀ f : Fn (Mem T) Ptr U, ApplyPtr f p m = Except.ok (Empty, m))
    ∧ (o.present = false →
        ApplyPtr (fun _ _ => Except.error (Fault.panic "f invoked") : Fn (Mem T) Ptr U) p m
          = Except.ok (Empty, m)) := by
  obtain ⟨q, hq, _, hload⟩ := load_valueField m p o h
  have hmirror : ∀ f : Fn (Mem T) T U, ApplyPtr (Fn.deref f) p m = Apply f o m := by
    intro f
    cases hp : o.present
    · simp [ApplyPtr, Apply, h, hp]
    · cases hf : f o.value m with
      | error e => simp [ApplyPtr, Apply, h, hp, hq, Fn.deref, hload, hf]
      | ok r => simp [ApplyPtr, Apply, h, hp, hq, Fn.deref, hload, hf]
  have hpure : ∀ g : T → U, Apply (Fn.pure g) o m
      = Except.ok (if o.present then Of (g o.value) else Empty, m) := by
    intro g
    cases hp : o.present <;> simp [Apply, hp, Fn.pure]
  refine ⟨hmirror, ?_, ?_, ?_⟩
  · intro g
    have hg := (hmirror (Fn.pure g)).trans (hpure g)
    refine ⟨hg, hpure g, ?_⟩
    intro r m1 hr
    rw [hg] at hr
    simp only [Except.ok.injEq, Prod.mk.injEq] at hr
    rw [← hr.2]
    exact ⟨rfl, h⟩
  · intro hp f
    simp [ApplyPtr, h, hp]
  · intro hp
    simp [ApplyPtr, h, hp]

/-- C10, at the test suite's inputs: `ApplyPtr(addOnePtr, &x)` for `x := Of(1)` is
`Apply(addOne, x)`, which is `Of(2)`. -/
theorem ApplyPtr_mirrors_Apply_witness :
    (Mem.mk [] [Of (1 : Int)]).loadOpt (OptPtr.addr 0) = Except.ok (Of 1)
    ∧ ApplyPtr addOnePtr (OptPtr.addr 0) (Mem.mk [] [Of (1 : Int)])
        = Apply addOne (Of 1) (Mem.mk [] [Of (1 : Int)])
    ∧ Apply addOne (Of 1) (Mem.mk [] [Of (1 : Int)])
        = Except.ok (Of 2, Mem.mk [] [Of (1 : Int)]) :=
  ⟨by decide,
    (ApplyPtr_mirrors_Apply (Mem.mk [] [Of (1 : Int)]) (OptPtr.addr 0) (Of 1) (by decide)).1
      addOne,
    by decide⟩

/-- C11: on a variable `o`, `MapPtr(func(p) { return f(*p) }, &o)` is `Map(f, o)`, in its result
and in its effect, for every callback `f`; with a pure `f` the call leaves the memory, and so
`o`, as it was; on an absent `o` no callback is invoked and the result is empty, and with a
callback that returns empty the result is empty. -/
theorem MapPtr_mirrors_Map [Inhabited U] (m : Mem T) (p : OptPtr) (o : Optional T)
    (h : m.loadOpt p = Except.ok o) :
    (∀ f : Fn (Mem T) T (Optional U), MapPtr (Fn.deref f) p m = Map f o m)
    ∧ (∀ g : T → Optional U,
        MapPtr (Fn.deref (Fn.pure g)) p m
          = Except.ok (if o.present then g o.value else Empty, m)
        ∧ Map (Fn.pure g) o m = Except.ok (if o.present then g o.value else Empty, m)
        ∧ ∀ r m1, MapPtr (Fn.deref (Fn.pure g)) p m = Except.ok (r, m1) →
            m1 = m ∧ m1.loadOpt p = Except.ok o)
    ∧ (o.present = false →
        ∀ f : Fn (Mem T) Ptr (Optional U), MapPtr f p m = Except.ok (Empty, m))
    ∧ (o.present = false →
        MapPtr (fun _ _ => Except.error (Fault.panic "f invoked") : Fn (Mem T) Ptr (Optional U))
          p m = Except.ok (Empty, m))
    ∧ MapPtr (Fn.deref (Fn.pure (fun _ => (Empty : Optional U)))) p m = Except.ok (Empty, m)
    ∧ MapPtr (fun _ m0 => Except.ok ((Empty : Optional U), m0)) p m = Except.ok (Empty, m) := by
  obtain ⟨q, hq, _, hload⟩ := load_valueField m p o h
  have hmirror : ∀ f : Fn (Mem T) T (Optional U), MapPtr (Fn.deref f) p m = Map f o m := by
    intro f
    cases hp : o.present
    · simp [MapPtr, Map, h, hp]
    · simp [MapPtr, Map, h, hp, hq, Fn.deref, hload]
  have hpure : ∀ g : T → Optional U, Map (Fn.pure g) o m
      = Except.ok (if o.present then g o.value else Empty, m) := by
    intro g
    cases hp : o.present <;> simp [Map, hp, Fn.pure]
  refine ⟨hmirror, ?_, ?_, ?_, ?_, ?_⟩
  · intro g
    have hg := (hmirror (Fn.pure g)).trans (hpure g)
    refine ⟨hg, hpure g, ?_⟩
    intro r m1 hr
    rw [hg] at hr
    simp only [Except.ok.injEq, Prod.mk.injEq] at hr
    rw [← hr.2]
    exact ⟨rfl, h⟩
  · intro hp f
    simp [MapPtr, h, hp]
  · intro hp
    simp [MapPtr, h, hp]
  · rw [(hmirror (Fn.pure (fun _ => (Empty : Optional U)))).trans (hpure _)]
    simp
  · cases hp : o.present <;> simp [MapPtr, h, hp, hq]

/-- C11, at the test suite's inputs: `MapPtr(addOneOptionalPtr, &x)` for `x := Of(1)` is
`Map(addOneOptional, x)`, which is `Of(2)`. -/
theorem MapPtr_mirrors_Map_witness :
    (Mem.mk [] [Of (1 : Int)]).loadOpt (OptPtr.addr 0) = Except.ok (Of 1)
    ∧ MapPtr (Fn.deref addOneOptional) (OptPtr.addr 0) (Mem.mk [] [Of (1 : Int)])
        = Map addOneOptional (Of 1) (Mem.mk [] [Of (1 : Int)])
    ∧ Map addOneOptional (Of 1) (Mem.mk [] [Of (1 : Int)])
        = Except.ok (Of 2, Mem.mk [] [Of (1 : Int)]) :=
  ⟨by decide,
    (MapPtr_mirrors_Map (Mem.mk [] [Of (1 : Int)]) (OptPtr.addr 0) (Of 1) (by decide)).1
      addOneOptional,
    by decide⟩

/-! ## Sequences of accessor calls -/

/-- One accessor call on a live receiver returns and leaves the optional as it was;
`GetOrPanic` is called on a present optional only. -/
theorem call_keeps (m : Mem T) (p : OptPtr) (o : Optional T) (c : Access T)
    (h : m.loadOpt p = Except.ok o) (hc : c = Access.getOrPanic → o.present = true) :
    ∃ r m1, c.call p m = Except.ok (r, m1) ∧ m1.loadOpt p = Except.ok o := by
  cases c with
  | present =>
    exact ⟨Answer.flag o.present, m, by simp [Access.call, Present_of_load m p o h], h⟩
  | getOrPanic =>
    exact ⟨Answer.val o.value, m,
      by simp [Access.call, GetOrPanic_of_load m p o h, hc rfl], h⟩
  | getOrDefault d =>
    exact ⟨Answer.val (if o.present then o.value else d), m,
      by simp [Access.call, GetOrDefault_of_load m p d o h], h⟩
  | asCopyPointer =>
    obtain ⟨a, rfl, ha⟩ := (loadOpt_ok_iff m p o).1 h
    cases hp : o.present
    · exact ⟨Answer.ptr Ptr.nil, m, by simp [Access.call, AsCopyPointer, h, hp], h⟩
    · exact ⟨Answer.ptr (m.newVar o.value).1, (m.newVar o.value).2,
        by simp [Access.call, AsCopyPointer, h, hp], h⟩

/-- Any sequence of accessor calls on a live receiver returns and leaves the optional as it
was. -/
theorem callAll_keeps (p : OptPtr) (o : Optional T) (cs : List (Access T))
    (hc : Access.getOrPanic ∈ cs → o.present = true) :
    ∀ m : Mem T, m.loadOpt p = Except.ok o →
      ∃ rs m1, callAll cs p m = Except.ok (rs, m1) ∧ m1.loadOpt p = Except.ok o := by
  induction cs with
  | nil =>
    intro m h
    exact ⟨[], m, rfl, h⟩
  | cons c cs ih =>
    intro m h
    obtain ⟨r, m1, hr, h1⟩ := call_keeps m p o c h
      (fun e => hc (by rw [e]; exact List.mem_cons_self _ _))
    obtain ⟨rs, m2, hrs, h2⟩ := ih (fun hm => hc (List.mem_cons_of_mem _ hm)) m1 h1
    exact ⟨r :: rs, m2, by simp [callAll, hr, hrs], h2⟩

/-- C12: `Present`, `GetOrDefault(d)`, `AsCopyPointer` and, on a present optional,
`GetOrPanic` return and leave both fields of the instance as they were, one call or any
sequence of calls; so `n` calls of `Present()` give `n` times the same flag, `n` calls of
`GetOrDefault(d)` give `n` times the same value, and after any such sequence `Present()` and
`GetOrDefault(d)` still answer what they answered before it. -/
theorem accessors_do_not_mutate (m : Mem T) (p : OptPtr) (o : Optional T)
    (h : m.loadOpt p = Except.ok o) :
    (∀ c : Access T, (c = Access.getOrPanic → o.present = true) →
        ∃ r m1, c.call p m = Except.ok (r, m1) ∧ m1.loadOpt p = Except.ok o)
    ∧ (∀ cs : List (Access T), (Access.getOrPanic ∈ cs → o.present = true) →
        ∃ rs m1, callAll cs p m = Except.ok (rs, m1)
          ∧ m1.loadOpt p = Except.ok o
          ∧ Present p m1 = Present p m
          ∧ ∀ d : T, GetOrDefault p d m1 = GetOrDefault p d m)
    ∧ (∀ n : Nat, callAll (List.replicate n Access.present) p m
        = Except.ok (List.replicate n (Answer.flag o.present), m))
    ∧ (∀ (n : Nat) (d : T), callAll (List.replicate n (Access.getOrDefault d)) p m
        = Except.ok (List.replicate n (Answer.val (if o.present then o.value else d)), m)) := by
  refine ⟨fun c hc => call_keeps m p o c h hc, ?_, ?_, ?_⟩
  · intro cs hc
    obtain ⟨rs, m1, hrs, h1⟩ := callAll_keeps p o cs hc m h
    refine ⟨rs, m1, hrs, h1, ?_, ?_⟩
    · rw [Present_of_load m1 p o h1, Present_of_load m p o h]
    · intro d
      rw [GetOrDefault_of_load m1 p d o h1, GetOrDefault_of_load m p d o h]
  · intro n
    induction n with
    | zero => rfl
    | succ k ih =>
      simp [List.replicate_succ, callAll, Access.call, Present_of_load m p o h, ih]
  · intro n d
    induction n with
    | zero => rfl
    | succ k ih =>
      simp [List.replicate_succ, callAll, Access.call, GetOrDefault_of_load m p d o h, ih]

/-- C12, at a concrete run: on `x := Of(1)` the calls `Present`, `AsCopyPointer`,
`GetOrDefault(2)`, `GetOrPanic`, `Present` return and leave `x` as it was. -/
theorem accessors_do_not_mutate_witness :
    (Mem.mk [] [Of (1 : Int)]).loadOpt (OptPtr.addr 0) = Except.ok (Of 1)
    ∧ ∃ rs m1,
        callAll [Access.present, Access.asCopyPointer, Access.getOrDefault 2,
          Access.getOrPanic, Access.present] (OptPtr.addr 0) (Mem.mk [] [Of (1 : Int)])
          = Except.ok (rs, m1)
        ∧ m1.loadOpt (OptPtr.addr 0) = Except.ok (Of 1) :=
  ⟨by decide,
    match (accessors_do_not_mutate (Mem.mk [] [Of (1 : Int)]) (OptPtr.addr 0) (Of 1)
      (by decide)).2.1 [Access.present, Access.asCopyPointer, Access.getOrDefault 2,
          Access.getOrPanic, Access.present] (fun _ => rfl) with
    | ⟨rs, m1, h1, h2, _, _⟩ => ⟨rs, m1, h1, h2⟩⟩

/-! ## The zero-value invariant -/

theorem zeroWhenAbsent_Of [Inhabited T] (v : T) : (Of v).ZeroWhenAbsent := by
  intro hp
  simp [Of] at hp

theorem zeroWhenAbsent_Empty [Inhabited T] : (Empty : Optional T).ZeroWhenAbsent :=
  fun _ => rfl

theorem zeroWhenAbsent_OfPointer [Inhabited T] (ptr : Ptr) (m : Mem T) (r : Optional T)
    (h : OfPointer ptr m = Except.ok r) : r.ZeroWhenAbsent := by
  unfold OfPointer at h
  split at h
  · simp only [Except.ok.injEq] at h
    rw [← h]
    exact zeroWhenAbsent_Empty
  · split at h
    · simp only [Except.ok.injEq] at h
      rw [← h]
      exact zeroWhenAbsent_Of _
    · exact Except.noConfusion h

theorem zeroWhenAbsent_Apply [Inhabited U] (f : Fn W T U) (o : Optional T) (w w1 : W)
    (r : Optional U) (h : Apply f o w = Except.ok (r, w1)) : r.ZeroWhenAbsent := by
  unfold Apply at h
  split at h
  · simp only [Except.ok.injEq, Prod.mk.injEq] at h
    rw [← h.1]
    exact zeroWhenAbsent_Empty
  · split at h
    · simp only [Except.ok.injEq, Prod.mk.injEq] at h
      rw [← h.1]
      exact zeroWhenAbsent_Of _
    · exact Except.noConfusion h

theorem zeroWhenAbsent_ApplyPtr [Inhabited U] (f : Fn (Mem T) Ptr U) (p : OptPtr)
    (m m1 : Mem T) (r : Optional U) (h : ApplyPtr f p m = Except.ok (r, m1)) :
    r.ZeroWhenAbsent := by
  unfold ApplyPtr at h
  split at h
  · split at h
    · simp only [Except.ok.injEq, Prod.mk.injEq] at h
      rw [← h.1]
      exact zeroWhenAbsent_Empty
    · split at h
      · split at h
        · simp only [Except.ok.injEq, Prod.mk.injEq] at h
          rw [← h.1]
          exact zeroWhenAbsent_Of _
        · exact Except.noConfusion h
      · exact Except.noConfusion h
  · exact Except.noConfusion h

theorem zeroWhenAbsent_Map [Inhabited U] (f : Fn W T (Optional U)) (o : Optional T) (w w1 : W)
    (r : Optional U) (hf : ∀ x w0 r0 w2, f x w0 = Except.ok (r0, w2) → r0.ZeroWhenAbsent)
    (h : Map f o w = Except.ok (r, w1)) : r.ZeroWhenAbsent := by
  unfold Map at h
  split at h
  · simp only [Except.ok.injEq, Prod.mk.injEq] at h
    rw [← h.1]
    exact zeroWhenAbsent_Empty
  · exact hf _ _ _ _ h

theorem zeroWhenAbsent_MapPtr [Inhabited U] (f : Fn (Mem T) Ptr (Optional U)) (p : OptPtr)
    (m m1 : Mem T) (r : Optional U)
    (hf : ∀ q m0 r0 m2, f q m0 = Except.ok (r0, m2) → r0.ZeroWhenAbsent)
    (h : MapPtr f p m = Except.ok (r, m1)) : r.ZeroWhenAbsent := by
  unfold MapPtr at h
  split at h
  · split at h
    · simp only [Except.ok.injEq, Prod.mk.injEq] at h
      rw [← h.1]
      exact zeroWhenAbsent_Empty
    · split at h
      · exact hf _ _ _ _ h
      · exact Except.noConfusion h
  · exact Except.noConfusion h

/-- Two absent optionals that hold the zero value are the same pair. -/
theorem absent_eq_of_zeroWhenAbsent [Inhabited T] (a b : Optional T)
    (ha : a.ZeroWhenAbsent) (hb : b.ZeroWhenAbsent)
    (hpa : a.present = false) (hpb : b.present = false) : a = b := by
  cases a with
  | mk va pa =>
    cases b with
    | mk vb pb =>
      have h1 : va = default := ha hpa
      have h2 : vb = default := hb hpb
      simp only at hpa hpb
      rw [h1, h2, hpa, hpb]

/-- The invariant holds of every built optional, by induction on how it was built. -/
theorem zeroWhenAbsent_of_Built [Inhabited T] (o : Optional T) (hb : Built o) :
    o.ZeroWhenAbsent := by
  induction hb with
  | of v => exact zeroWhenAbsent_Of v
  | empty => exact zeroWhenAbsent_Empty
  | ofPointer ptr m r h => exact zeroWhenAbsent_OfPointer ptr m r h
  | apply f o w w1 r _ h _ => exact zeroWhenAbsent_Apply f o w w1 r h
  | applyPtr f p o m m1 r _ _ h _ => exact zeroWhenAbsent_ApplyPtr f p m m1 r h
  | map f o w w1 r _ _ h _ ihf => exact zeroWhenAbsent_Map f o w w1 r ihf h
  | mapPtr f p o m m1 r _ _ _ h _ ihf => exact zeroWhenAbsent_MapPtr f p m m1 r ihf h

/-- C13: every optional built through the public API (`Of`, `Empty`, `OfPointer`, and
`Apply`, `ApplyPtr`, `Map`, `MapPtr` on built optionals with callbacks that return built
optionals) holds the zero value of its type when it is absent; so two absent optionals of
one type so built are the same (value, present) pair, namely `Empty()`. -/
theorem built_zero_when_absent :
    (∀ (T : Type) [Inhabited T] (o : Optional T), Built o → o.ZeroWhenAbsent)
    ∧ (∀ (T : Type) [Inhabited T] (a b : Optional T), Built a → Built b →
        a.present = false → b.present = false → a = b ∧ a = Empty) := by
  have hinv : ∀ (T : Type) [Inhabited T] (o : Optional T), Built o → o.ZeroWhenAbsent :=
    fun _ _ o hb => zeroWhenAbsent_of_Built o hb
  refine ⟨hinv, ?_⟩
  intro T _ a b ha hb hpa hpb
  exact ⟨absent_eq_of_zeroWhenAbsent a b (hinv T a ha) (hinv T b hb) hpa hpb,
    absent_eq_of_zeroWhenAbsent a Empty (hinv T a ha) zeroWhenAbsent_Empty hpa rfl⟩

/-- C13, at the test suite's inputs: `Map(alwaysEmpty, Of(1))` and `OfPointer(nil)` are built
and absent, so they are the same pair. -/
theorem built_zero_when_absent_witness :
    Built (Empty : Optional Int)
    ∧ Built (Of (1 : Int))
    ∧ Map alwaysEmpty (Of (1 : Int)) () = Except.ok ((Empty : Optional Int), ())
    ∧ OfPointer Ptr.nil (Mem.empty : Mem Int) = Except.ok Empty
    ∧ (Empty : Optional Int) = Empty ∧ (Empty : Optional Int) = Empty :=
  have h1 : Built (Empty : Optional Int) :=
    Built.map alwaysEmpty (Of (1 : Int)) () () Empty (Built.of 1)
      (fun _ _ r0 _ h0 => by
        simp only [alwaysEmpty, Fn.pure, Except.ok.injEq, Prod.mk.injEq] at h0
        rw [← h0.1]
        exact Built.empty)
      (by decide)
  have h2 : Built (Empty : Optional Int) :=
    Built.ofPointer Ptr.nil (Mem.empty : Mem Int) Empty (by decide)
  ⟨h1, Built.of 1, by decide, by decide,
    built_zero_when_absent.2 Int Empty Empty h1 h2 rfl rfl⟩

/-! ## Aliasing -/

/-- An optional variable is still there, unchanged, after another one is declared. -/
theorem loadOpt_newOpt_old (m : Mem T) (p : OptPtr) (o o1 : Optional T)
    (h : m.loadOpt p = Except.ok o) :
    (m.newOpt o1).2.loadOpt p = Except.ok o ∧ p ≠ (m.newOpt o1).1 := by
  obtain ⟨a, rfl, ha⟩ := (loadOpt_ok_iff m p o).1 h
  have hlt : a < m.opts.length := by
    by_contra hge
    rw [List.getElem?_eq_none (not_lt.1 hge)] at ha
    exact Option.noConfusion ha
  refine ⟨by simp [Mem.loadOpt, Mem.newOpt, List.getElem?_append_left hlt, ha], ?_⟩
  intro he
  simp only [Mem.newOpt, OptPtr.addr.injEq] at he
  omega

theorem AsPointer_of_present (m : Mem T) (a : Nat) (o : Optional T)
    (h : m.loadOpt (OptPtr.addr a) = Except.ok o) (hp : o.present = true) :
    AsPointer (OptPtr.addr a) m = Except.ok (Ptr.value a) := by
  simp [AsPointer, h, hp, OptPtr.valueField]

/-- A write through the pointer `AsPointer` returns for the present variable at `a` changes
that variable's payload and leaves the variable at `b` alone. -/
theorem write_through_AsPointer (m : Mem T) (a b : Nat) (oa ob : Optional T) (w : T)
    (ha : m.loadOpt (OptPtr.addr a) = Except.ok oa) (hp : oa.present = true)
    (hb : m.loadOpt (OptPtr.addr b) = Except.ok ob) (hab : a ≠ b) :
    ∃ q m1, AsPointer (OptPtr.addr a) m = Except.ok q ∧ m.store q w = Except.ok m1
      ∧ m1.loadOpt (OptPtr.addr b) = Except.ok ob
      ∧ m1.loadOpt (OptPtr.addr a) = Except.ok ⟨w, true⟩ := by
  obtain ⟨m1, hs, hl⟩ := loadOpt_store_value m a oa w ha
  refine ⟨Ptr.value a, m1, AsPointer_of_present m a oa ha hp, hs, ?_, ?_⟩
  · rw [loadOpt_store_ne m m1 (Ptr.value a) w b hs (by simpa using hab)]
    exact hb
  · rw [hl, hp]

/-- C14: after `o2 := o1` for a present `o1` holding `v`, a write of any `w` through
`o1.AsPointer()` leaves `o2` as it was (present, `GetOrPanic` gives `v`) while
`o1.GetOrPanic()` gives `w`; and a write through `o2.AsPointer()` leaves `o1` as it was
while `o2.GetOrPanic()` gives `w`. -/
theorem copies_are_independent (m : Mem T) (p1 : OptPtr) (o1 : Optional T)
    (h : m.loadOpt p1 = Except.ok o1) (hp : o1.present = true) :
    (m.newOpt o1).2.loadOpt p1 = Except.ok o1
    ∧ (m.newOpt o1).2.loadOpt (m.newOpt o1).1 = Except.ok o1
    ∧ (∀ w : T, ∃ q m2, AsPointer p1 (m.newOpt o1).2 = Except.ok q
        ∧ (m.newOpt o1).2.store q w = Except.ok m2
        ∧ m2.loadOpt (m.newOpt o1).1 = Except.ok o1
        ∧ Present (m.newOpt o1).1 m2 = Except.ok true
        ∧ GetOrPanic (m.newOpt o1).1 m2 = Except.ok o1.value
        ∧ GetOrPanic p1 m2 = Except.ok w)
    ∧ (∀ w : T, ∃ q m2, AsPointer (m.newOpt o1).1 (m.newOpt o1).2 = Except.ok q
        ∧ (m.newOpt o1).2.store q w = Except.ok m2
        ∧ m2.loadOpt p1 = Except.ok o1
        ∧ Present p1 m2 = Except.ok true
        ∧ GetOrPanic p1 m2 = Except.ok o1.value
        ∧ GetOrPanic (m.newOpt o1).1 m2 = Except.ok w) := by
  obtain ⟨h1, hne⟩ := loadOpt_newOpt_old m p1 o1 o1 h
  have h2 := loadOpt_newOpt m o1
  obtain ⟨a, rfl, _⟩ := (loadOpt_ok_iff m p1 o1).1 h
  have hab : a ≠ m.opts.length := fun e => hne (by rw [e]; rfl)
  refine ⟨h1, h2, ?_, ?_⟩
  · intro w
    obtain ⟨q, m2, hq, hs, hb, ha⟩ :=
      write_through_AsPointer (m.newOpt o1).2 a m.opts.length o1 o1 w h1 hp h2 hab
    have hb : m2.loadOpt (m.newOpt o1).1 = Except.ok o1 := hb
    refine ⟨q, m2, hq, hs, hb, ?_, ?_, ?_⟩
    · rw [Present_of_load _ _ _ hb, hp]
    · rw [GetOrPanic_of_load _ _ _ hb]
      simp [hp]
    · rw [GetOrPanic_of_load _ _ _ ha]
      simp
  · intro w
    obtain ⟨q, m2, hq, hs, hb, ha⟩ :=
      write_through_AsPointer (m.newOpt o1).2 m.opts.length a o1 o1 w h2 hp h1 (Ne.symm hab)
    have ha : m2.loadOpt (m.newOpt o1).1 = Except.ok ⟨w, true⟩ := ha
    refine ⟨q, m2, hq, hs, hb, ?_, ?_, ?_⟩
    · rw [Present_of_load _ _ _ hb, hp]
    · rw [GetOrPanic_of_load _ _ _ hb]
      simp [hp]
    · rw [GetOrPanic_of_load _ _ _ ha]
      simp

/-- C14, at a concrete run: `o1 := Of(1); o2 := o1; *o1.AsPointer() = 2` leaves
`o2.GetOrPanic()` at `1` and makes `o1.GetOrPanic()` return `2`. -/
theorem copies_are_independent_witness :
    (Mem.mk [] [Of (1 : Int)]).loadOpt (OptPtr.addr 0) = Except.ok (Of 1)
    ∧ (Of (1 : Int)).present = true
    ∧ ∃ q m2, AsPointer (OptPtr.addr 0) (Mem.mk [] [Of (1 : Int), Of 1]) = Except.ok q
        ∧ (Mem.mk [] [Of (1 : Int), Of 1]).store q 2 = Except.ok m2
        ∧ GetOrPanic (OptPtr.addr 1) m2 = Except.ok 1
        ∧ GetOrPanic (OptPtr.addr 0) m2 = Except.ok 2 :=
  ⟨by decide, rfl,
    match (copies_are_independent (Mem.mk [] [Of (1 : Int)]) (OptPtr.addr 0) (Of 1)
      (by decide) rfl).2.2.1 2 with
    | ⟨q, m2, h1, h2, _, _, h5, h6⟩ => ⟨q, m2, h1, h2, h5, h6⟩⟩

/-- C15, as stated, fails in its last part: a callback passed to `Apply` or `Map` can change
the caller's `o`. The closure `func(x int) int { *o.AsPointer() = 5; return x }` holds its own
pointer to the variable `o` (here variable number 0), and after `Apply` or `Map` with it
`o.GetOrPanic()` is `5`, not `1`. -/
theorem by_value_callback_can_write_caller :
    (Mem.mk [] [Of (1 : Int)]).loadOpt (OptPtr.addr 0) = Except.ok (Of 1)
    ∧ AsPointer (OptPtr.addr 0) (Mem.mk [] [Of (1 : Int)]) = Except.ok (Ptr.value 0)
    ∧ Apply (fun x => Fn.write (5 : Int) x (Ptr.value 0)) (Of (1 : Int))
        (Mem.mk [] [Of (1 : Int)]) = Except.ok (Of 1, Mem.mk [] [Of 5])
    ∧ Map (fun x => Fn.write (5 : Int) (Of x) (Ptr.value 0)) (Of (1 : Int))
        (Mem.mk [] [Of (1 : Int)]) = Except.ok (Of 1, Mem.mk [] [Of 5])
    ∧ GetOrPanic (OptPtr.addr 0) (Mem.mk [] [Of (1 : Int)]) = Except.ok 1
    ∧ GetOrPanic (OptPtr.addr 0) (Mem.mk [] [Of (5 : Int)]) = Except.ok 5 := by
  refine ⟨by decide, by decide, by decide, by decide, by decide, by decide⟩

/-- C15, amended: on a present `o`, a callback that writes `w` through its pointer argument
writes the container's own storage: after `ApplyPtr(f, &o)` and after `MapPtr(f, &o)` the
variable `o` is present and `GetOrPanic` gives `w`. `Apply` and `Map` take `o` by value and
hand the callback a copy of the payload and no pointer: a callback that leaves the caller's
`o` alone whenever it is called leaves it alone through `Apply` and `Map`, and with a callback
that has no effect the memory after the call is the memory before it. -/
theorem ptr_callbacks_write_own_storage [Inhabited U] (m : Mem T) (p : OptPtr)
    (o : Optional T) (h : m.loadOpt p = Except.ok o) :
    (o.present = true → ∀ (w : T) (u : U), ∃ m1,
        ApplyPtr (Fn.write w u) p m = Except.ok (Of u, m1)
        ∧ m1.loadOpt p = Except.ok ⟨w, true⟩
        ∧ Present p m1 = Except.ok true
        ∧ GetOrPanic p m1 = Except.ok w)
    ∧ (o.present = true → ∀ (w : T) (r : Optional U), ∃ m1,
        MapPtr (Fn.write w r) p m = Except.ok (r, m1)
        ∧ m1.loadOpt p = Except.ok ⟨w, true⟩
        ∧ Present p m1 = Except.ok true
        ∧ GetOrPanic p m1 = Except.ok w)
    ∧ (∀ f : Fn (Mem T) T U,
        (∀ x m0 u m2, f x m0 = Except.ok (u, m2) → m2.loadOpt p = m0.loadOpt p) →
        ∀ r m1, Apply f o m = Except.ok (r, m1) → m1.loadOpt p = Except.ok o)
    ∧ (∀ f : Fn (Mem T) T (Optional U),
        (∀ x m0 u m2, f x m0 = Except.ok (u, m2) → m2.loadOpt p = m0.loadOpt p) →
        ∀ r m1, Map f o m = Except.ok (r, m1) → m1.loadOpt p = Except.ok o)
    ∧ (∀ g : T → U, ∃ r, Apply (Fn.pure g) o m = Except.ok (r, m))
    ∧ (∀ g : T → Optional U, ∃ r, Map (Fn.pure g) o m = Except.ok (r, m)) := by
  obtain ⟨a, rfl, _⟩ := (loadOpt_ok_iff m p o).1 h
  refine ⟨?_, ?_, ?_, ?_, ?_, ?_⟩
  · intro hp w u
    obtain ⟨m1, hs, hl⟩ := loadOpt_store_value m a o w h
    rw [hp] at hl
    refine ⟨m1, by simp [ApplyPtr, h, hp, OptPtr.valueField, Fn.write, hs], hl, ?_, ?_⟩
    · rw [Present_of_load _ _ _ hl]
    · rw [GetOrPanic_of_load _ _ _ hl]
      simp
  · intro hp w r
    obtain ⟨m1, hs, hl⟩ := loadOpt_store_value m a o w h
    rw [hp] at hl
    refine ⟨m1, by simp [MapPtr, h, hp, OptPtr.valueField, Fn.write, hs], hl, ?_, ?_⟩
    · rw [Present_of_load _ _ _ hl]
    · rw [GetOrPanic_of_load _ _ _ hl]
      simp
  · intro f hf r m1 hr
    unfold Apply at hr
    split at hr
    · simp only [Except.ok.injEq, Prod.mk.injEq] at hr
      rw [← hr.2]
      exact h
    · split at hr
      · rename_i u m2 hfu
        simp only [Except.ok.injEq, Prod.mk.injEq] at hr
        rw [← hr.2, hf _ _ _ _ hfu]
        exact h
      · exact Except.noConfusion hr
  · intro f hf r m1 hr
    unfold Map at hr
    split at hr
    · simp only [Except.ok.injEq, Prod.mk.injEq] at hr
      rw [← hr.2]
      exact h
    · rw [hf _ _ _ _ hr]
      exact h
  · intro g
    cases hp : o.present
    · exact ⟨Empty, by simp [Apply, hp]⟩
    · exact ⟨Of (g o.value), by simp [Apply, hp, Fn.pure]⟩
  · intro g
    cases hp : o.present
    · exact ⟨Empty, by simp [Map, hp]⟩
    · exact ⟨g o.value, by simp [Map, hp, Fn.pure]⟩

/-- C15, at a concrete run: on `x := Of(1)`, `ApplyPtr` with the callback
`func(p *int) int { *p = 2; return 7 }` leaves `x.GetOrPanic()` at `2`. -/
theorem ptr_callbacks_write_own_storage_witness :
    (Mem.mk [] [Of (1 : Int)]).loadOpt (OptPtr.addr 0) = Except.ok (Of 1)
    ∧ (Of (1 : Int)).present = true
    ∧ ∃ m1, ApplyPtr (Fn.write (2 : Int) (7 : Int)) (OptPtr.addr 0) (Mem.mk [] [Of (1 : Int)])
          = Except.ok (Of 7, m1)
        ∧ GetOrPanic (OptPtr.addr 0) m1 = Except.ok 2 :=
  ⟨by decide, rfl,
    match (ptr_callbacks_write_own_storage (Mem.mk [] [Of (1 : Int)]) (OptPtr.addr 0) (Of 1)
      (by decide)).1 rfl 2 (7 : Int) with
    | ⟨m1, h1, _, _, h4⟩ => ⟨m1, h1, h4⟩⟩

theorem AsPointer_of_load (m : Mem T) (p : OptPtr) (o : Optional T)
    (h : m.loadOpt p = Except.ok o) :
    AsPointer p m = if o.present then p.valueField else Except.ok Ptr.nil := by
  cases hp : o.present <;> simp [AsPointer, h, hp]

theorem AsCopyPointer_of_load (m : Mem T) (p : OptPtr) (o : Optional T)
    (h : m.loadOpt p = Except.ok o) :
    AsCopyPointer p m = Except.ok (if o.present then m.newVar o.value else (Ptr.nil, m)) := by
  cases hp : o.present <;> simp [AsCopyPointer, h, hp]

/-- A readable pointer stays readable, with the same referent, when a local is allocated. -/
theorem load_newVar (m : Mem T) (x : T) (q : Ptr) (v : T)
    (h : m.load q = Except.ok v) : (m.newVar x).2.load q = Except.ok v := by
  cases q with
  | nil => simp [Mem.load] at h
  | value a => exact h
  | var a =>
    cases ha : m.vars[a]? with
    | none => simp [Mem.load, ha] at h
    | some s =>
      have hlt : a < m.vars.length := by
        by_contra hge
        rw [List.getElem?_eq_none (not_lt.1 hge)] at ha
        exact Option.noConfusion ha
      simp only [Mem.load, ha] at h
      simp [Mem.load, Mem.newVar, List.getElem?_append_left hlt, ha, h]

theorem load_newVar_self (m : Mem T) (x : T) :
    (m.newVar x).2.load (m.newVar x).1 = Except.ok x := by
  simp [Mem.newVar, Mem.load]

/-! ## Algebraic laws -/

/-- A present optional is `Of` of its payload, and an absent one that holds the zero value is
`Empty()`. -/
theorem eq_Of_or_Empty [Inhabited T] (o : Optional T) (hz : o.ZeroWhenAbsent) :
    o = if o.present then Of o.value else Empty := by
  cases o with
  | mk v b =>
    cases b with
    | true => rfl
    | false =>
      have hv : v = default := hz rfl
      simp [Empty, hv]

/-- C16: for an optional `o` that holds the zero value when absent, so for every `o` built
through the public API, `Apply(func(x) { return x }, o)` is `o` itself. For an arbitrary
struct value the result is `o` when present and `Empty()` when absent, and stored in a
variable it answers every accessor as `o` does (`Present`, `GetOrPanic`, `GetOrDefault`, the
pointer of `AsPointer` and of `AsCopyPointer`); but an absent struct with a non-zero payload is
not the pair the call returns. -/
theorem Apply_identity [Inhabited T] (o : Optional T) (w : W) :
    (o.ZeroWhenAbsent → Apply (Fn.pure (fun x => x)) o w = Except.ok (o, w))
    ∧ (Built o → Apply (Fn.pure (fun x => x)) o w = Except.ok (o, w))
    ∧ Apply (Fn.pure (fun x => x)) o w = Except.ok (if o.present then o else Empty, w)
    ∧ (∀ (m : Mem T) (r : Optional T) (w1 : W),
        Apply (Fn.pure (fun x => x)) o w = Except.ok (r, w1) →
          Present (m.newOpt r).1 (m.newOpt r).2 = Present (m.newOpt o).1 (m.newOpt o).2
          ∧ GetOrPanic (m.newOpt r).1 (m.newOpt r).2
              = GetOrPanic (m.newOpt o).1 (m.newOpt o).2
          ∧ (∀ d : T, GetOrDefault (m.newOpt r).1 d (m.newOpt r).2
              = GetOrDefault (m.newOpt o).1 d (m.newOpt o).2)
          ∧ AsPointer (m.newOpt r).1 (m.newOpt r).2
              = AsPointer (m.newOpt o).1 (m.newOpt o).2
          ∧ ∃ q mr mo, AsCopyPointer (m.newOpt r).1 (m.newOpt r).2 = Except.ok (q, mr)
              ∧ AsCopyPointer (m.newOpt o).1 (m.newOpt o).2 = Except.ok (q, mo)
              ∧ (q = Ptr.nil ↔ o.present = false))
    ∧ Apply (Fn.pure (fun x => x)) (Optional.mk (1 : Int) false) w
        ≠ Except.ok (Optional.mk (1 : Int) false, w) := by
  have hgen : Apply (Fn.pure (fun x => x)) o w
      = Except.ok (if o.present then o else Empty, w) := by
    cases o with
    | mk v b => cases b <;> simp [Apply, Fn.pure, Of]
  have hz : o.ZeroWhenAbsent → Apply (Fn.pure (fun x => x)) o w = Except.ok (o, w) := by
    intro hz
    rw [hgen]
    cases hp : o.present
    · have he := eq_Of_or_Empty o hz
      rw [hp] at he
      simp [he]
    · simp
  refine ⟨hz, fun hb => hz (zeroWhenAbsent_of_Built o hb), hgen, ?_, ?_⟩
  · intro m r w1 hr
    rw [hgen] at hr
    simp only [Except.ok.injEq, Prod.mk.injEq] at hr
    have hr1 := hr.1
    have ho := loadOpt_newOpt m o
    cases hp : o.present
    · rw [hp] at hr1
      simp only [Bool.false_eq_true, if_false] at hr1
      subst hr1
      have he := loadOpt_newOpt m (Empty : Optional T)
      rw [Present_of_load _ _ _ he, Present_of_load _ _ _ ho,
        GetOrPanic_of_load _ _ _ he, GetOrPanic_of_load _ _ _ ho]
      refine ⟨by simp [hp, Empty], by simp [hp, Empty], ?_, ?_, ?_⟩
      · intro d
        rw [GetOrDefault_of_load _ _ _ _ he, GetOrDefault_of_load _ _ _ _ ho]
        simp [hp, Empty]
      · rw [AsPointer_of_load _ _ _ he, AsPointer_of_load _ _ _ ho]
        simp [hp, Empty]
      · refine ⟨Ptr.nil, (m.newOpt (Empty : Optional T)).2, (m.newOpt o).2, ?_, ?_, by simp⟩
        · rw [AsCopyPointer_of_load _ _ _ he]
          simp [Empty]
        · rw [AsCopyPointer_of_load _ _ _ ho]
          simp [hp]
    · rw [hp] at hr1
      simp only [if_true] at hr1
      subst hr1
      refine ⟨rfl, rfl, fun _ => rfl, rfl, ?_⟩
      have hc : AsCopyPointer (m.newOpt o).1 (m.newOpt o).2
          = Except.ok (((m.newOpt o).2.newVar o.value).1, ((m.newOpt o).2.newVar o.value).2) := by
        rw [AsCopyPointer_of_load _ _ _ ho]
        simp [hp]
      exact ⟨_, _, _, hc, hc, by simp [Mem.newVar]⟩
  · simp [Apply, Empty]

/-- C16, at the test suite's inputs: `Apply` with the identity on `Empty()` is `Empty()`. -/
theorem Apply_identity_witness :
    (Empty : Optional Int).ZeroWhenAbsent
    ∧ Apply (Fn.pure (fun x => x)) (Empty : Optional Int) () = Except.ok (Empty, ()) :=
  ⟨by decide, (Apply_identity (Empty : Optional Int) ()).1 (by decide)⟩

/-- C17: `Map(g, Map(f, o))` is `Map(func(x) { return Map(g, f(x)) }, o)` for all callbacks
`f`, `g` and every `o`, in result and in effect, and `Map(f, Of(v))` is `f(v)`. -/
theorem Map_assoc_and_left_identity {V : Type} [Inhabited U] [Inhabited V]
    (f : Fn W T (Optional U)) (g : Fn W U (Optional V)) (o : Optional T) (w : W) :
    MapMap f g o w = Map (Fn.thenMap f g) o w
    ∧ (∀ v : T, Map f (Of v) w = f v w)
    ∧ (∀ (f0 : T → Optional U) (g0 : U → Optional V),
        MapMap (Fn.pure f0) (Fn.pure g0) o w
          = Except.ok (if o.present then
              (if (f0 o.value).present then g0 (f0 o.value).value else Empty)
            else Empty, w)) := by
  refine ⟨?_, ?_, ?_⟩
  · cases hp : o.present
    · simp [MapMap, Map, hp, Empty]
    · cases hf : f o.value w with
      | error e => simp [MapMap, Map, hp, Fn.thenMap, hf]
      | ok r => simp [MapMap, Map, hp, Fn.thenMap, hf]
  · intro v
    simp [Map, Of]
  · intro f0 g0
    cases hp : o.present
    · simp [MapMap, Map, hp, Empty]
    · cases hq : (f0 o.value).present <;> simp [MapMap, Map, hp, Fn.pure, hq]

/-- C18: `Apply(f, o)` is `Map(func(x) { return Of(f(x)) }, o)` for every callback `f` and
every `o`; so the result of `Apply` is present exactly when `o` is, as a field and through
`Present` on variables holding them. -/
theorem Apply_eq_Map_wrapOf [Inhabited U] (f : Fn W T U) (o : Optional T) (w : W) :
    Apply f o w = Map (Fn.wrapOf f) o w
    ∧ (∀ g : T → U, Apply (Fn.pure g) o w = Map (Fn.pure (fun x => Of (g x))) o w)
    ∧ (∀ (r : Optional U) (w1 : W), Apply f o w = Except.ok (r, w1) → r.present = o.present)
    ∧ (∀ (r : Optional U) (w1 : W) (mu : Mem U) (m : Mem T),
        Apply f o w = Except.ok (r, w1) →
          Present (mu.newOpt r).1 (mu.newOpt r).2 = Present (m.newOpt o).1 (m.newOpt o).2)
    ∧ (∀ g : T → U, ∃ r, Apply (Fn.pure g) o w = Except.ok (r, w)
        ∧ r.present = o.present) := by
  have hpres : ∀ (r : Optional U) (w1 : W),
      Apply f o w = Except.ok (r, w1) → r.present = o.present := by
    intro r w1 hr
    unfold Apply at hr
    split at hr
    · rename_i hp
      simp only [Except.ok.injEq, Prod.mk.injEq] at hr
      rw [← hr.1]
      simpa [Empty] using hp
    · rename_i hp
      split at hr
      · simp only [Except.ok.injEq, Prod.mk.injEq] at hr
        rw [← hr.1]
        simpa [Of] using hp
      · exact Except.noConfusion hr
  refine ⟨?_, ?_, hpres, ?_, ?_⟩
  · cases hp : o.present
    · simp [Apply, Map, hp]
    · cases hf : f o.value w with
      | error e => simp [Apply, Map, hp, Fn.wrapOf, hf]
      | ok r => simp [Apply, Map, hp, Fn.wrapOf, hf]
  · intro g
    cases hp : o.present <;> simp [Apply, Map, hp, Fn.pure]
  · intro r w1 mu m hr
    rw [Present_of_load _ _ _ (loadOpt_newOpt mu r),
      Present_of_load _ _ _ (loadOpt_newOpt m o), hpres r w1 hr]
  · intro g
    cases hp : o.present
    · exact ⟨Empty, by simp [Apply, hp], rfl⟩
    · exact ⟨Of (g o.value), by simp [Apply, hp, Fn.pure], rfl⟩

/-- C18, at the test suite's inputs: `Apply(addOne, Of(1))` is present, as `Of(1)` is. -/
theorem Apply_eq_Map_wrapOf_witness :
    Apply addOne (Of (1 : Int)) () = Except.ok (Of 2, ())
    ∧ (Of (2 : Int)).present = (Of (1 : Int)).present :=
  ⟨by decide, (Apply_eq_Map_wrapOf addOne (Of (1 : Int)) ()).2.2.1 (Of 2) () (by decide)⟩

/-- C19: for a variable `o` that holds the zero value when absent, so for every `o` built
through the public API, `OfPointer(o.AsPointer())` is `o` and `OfPointer(o.AsCopyPointer())`
is `o`. Conversely, for a pointer `ptr` that is nil or readable, with `x := OfPointer(ptr)`
the pointer `x.AsCopyPointer()` is nil iff `ptr` is nil, and otherwise it reads the value
`*ptr` reads. -/
theorem pointer_round_trip [Inhabited T] (m : Mem T) (p : OptPtr) (o : Optional T)
    (h : m.loadOpt p = Except.ok o) :
    (o.ZeroWhenAbsent → ∃ q, AsPointer p m = Except.ok q ∧ OfPointer q m = Except.ok o)
    ∧ (o.ZeroWhenAbsent →
        ∃ q m1, AsCopyPointer p m = Except.ok (q, m1) ∧ OfPointer q m1 = Except.ok o)
    ∧ (Built o → ∃ q q1 m1, AsPointer p m = Except.ok q ∧ OfPointer q m = Except.ok o
        ∧ AsCopyPointer p m = Except.ok (q1, m1) ∧ OfPointer q1 m1 = Except.ok o)
    ∧ (o.present = false → AsPointer p m = Except.ok Ptr.nil
        ∧ AsCopyPointer p m = Except.ok (Ptr.nil, m)
        ∧ OfPointer Ptr.nil m = Except.ok Empty)
    ∧ (∀ ptr : Ptr, (ptr = Ptr.nil ∨ ∃ v, m.load ptr = Except.ok v) →
        ∃ r q m2, OfPointer ptr m = Except.ok r
          ∧ AsCopyPointer (m.newOpt r).1 (m.newOpt r).2 = Except.ok (q, m2)
          ∧ (q = Ptr.nil ↔ ptr = Ptr.nil)
          ∧ ∀ v, m.load ptr = Except.ok v →
              m2.load q = Except.ok v ∧ m2.load ptr = Except.ok v) := by
  obtain ⟨pv, hpv, hne, hload⟩ := load_valueField m p o h
  have hA : o.ZeroWhenAbsent →
      ∃ q, AsPointer p m = Except.ok q ∧ OfPointer q m = Except.ok o := by
    intro hz
    have he := eq_Of_or_Empty o hz
    cases hp : o.present
    · rw [hp] at he
      simp only [Bool.false_eq_true, if_false] at he
      refine ⟨Ptr.nil, by rw [AsPointer_of_load m p o h]; simp [hp], ?_⟩
      rw [he]
      simp [OfPointer]
    · rw [hp] at he
      simp only [if_true] at he
      refine ⟨pv, by rw [AsPointer_of_load m p o h]; simp [hp, hpv], ?_⟩
      have hr : OfPointer pv m = Except.ok (Of o.value) := by simp [OfPointer, hne, hload]
      exact hr.trans (congrArg Except.ok he.symm)
  have hC : o.ZeroWhenAbsent →
      ∃ q m1, AsCopyPointer p m = Except.ok (q, m1) ∧ OfPointer q m1 = Except.ok o := by
    intro hz
    have he := eq_Of_or_Empty o hz
    cases hp : o.present
    · rw [hp] at he
      simp only [Bool.false_eq_true, if_false] at he
      refine ⟨Ptr.nil, m, by rw [AsCopyPointer_of_load m p o h]; simp [hp], ?_⟩
      rw [he]
      simp [OfPointer]
    · rw [hp] at he
      simp only [if_true] at he
      refine ⟨(m.newVar o.value).1, (m.newVar o.value).2,
        by rw [AsCopyPointer_of_load m p o h]; simp [hp], ?_⟩
      have hl := load_newVar_self m o.value
      have hr : OfPointer (m.newVar o.value).1 (m.newVar o.value).2
          = Except.ok (Of o.value) := by
        simp [OfPointer, load_ok_ne_nil _ _ _ hl, hl]
      exact hr.trans (congrArg Except.ok he.symm)
  refine ⟨hA, hC, ?_, ?_, ?_⟩
  · intro hb
    obtain ⟨q, h1, h2⟩ := hA (zeroWhenAbsent_of_Built o hb)
    obtain ⟨q1, m1, h3, h4⟩ := hC (zeroWhenAbsent_of_Built o hb)
    exact ⟨q, q1, m1, h1, h2, h3, h4⟩
  · intro hp
    refine ⟨by rw [AsPointer_of_load m p o h]; simp [hp],
      by rw [AsCopyPointer_of_load m p o h]; simp [hp], by simp [OfPointer]⟩
  · rintro ptr (rfl | ⟨v, hv⟩)
    · have he := loadOpt_newOpt m (Empty : Optional T)
      refine ⟨Empty, Ptr.nil, (m.newOpt (Empty : Optional T)).2, by simp [OfPointer], ?_,
        by simp, ?_⟩
      · rw [AsCopyPointer_of_load _ _ _ he]
        simp [Empty]
      · intro v hv
        simp [Mem.load] at hv
    · have hnil := load_ok_ne_nil m ptr v hv
      have ho := loadOpt_newOpt m (Of v)
      refine ⟨Of v, ((m.newOpt (Of v)).2.newVar v).1, ((m.newOpt (Of v)).2.newVar v).2,
        by simp [OfPointer, hnil, hv], ?_, ?_, ?_⟩
      · rw [AsCopyPointer_of_load _ _ _ ho]
        simp [Of]
      · simp [Mem.newVar, hnil]
      · intro v1 hv1
        rw [hv] at hv1
        simp only [Except.ok.injEq] at hv1
        subst hv1
        exact ⟨load_newVar_self _ v,
          load_newVar _ v ptr v (load_newOpt m (Of v) ptr v hv)⟩

/-- C19, at the test suite's inputs: for `x := Of(1)`, `OfPointer(x.AsPointer())` is
`Of(1)`. -/
theorem pointer_round_trip_witness :
    (Mem.mk [] [Of (1 : Int)]).loadOpt (OptPtr.addr 0) = Except.ok (Of 1)
    ∧ (Of (1 : Int)).ZeroWhenAbsent
    ∧ ∃ q, AsPointer (OptPtr.addr 0) (Mem.mk [] [Of (1 : Int)]) = Except.ok q
        ∧ OfPointer q (Mem.mk [] [Of (1 : Int)]) = Except.ok (Of 1) :=
  ⟨by decide, by decide,
    (pointer_round_trip (Mem.mk [] [Of (1 : Int)]) (OptPtr.addr 0) (Of 1) (by decide)).1
      (by decide)⟩

end optional
